import Mathlib

set_option maxRecDepth 20000
set_option maxHeartbeats 1000000

/-!
Verification development for the CursWord request-orchestration and
code-materialization pipeline.  JavaScript/TypeScript strings are modelled
as lists of characters (`Str`); `Record<string, string>` values are
modelled as association lists in insertion order; fallible operations
return `Option`/`Except`.  Each definition mirrors one function of the
source (`src/services/localInferenceService.ts`,
`src/services/multiProviderService.ts`, the Zustand store module and the
distiller tail).
-/

namespace CursWord

/-- JS strings are modelled as lists of characters. -/
abbrev Str := List Char

/-- Conversion from a Lean string literal to the character-list model. -/
def strOf (s : String) : Str := s.data

/-- The JavaScript whitespace class used by `\s` and `String.prototype.trim`
(ASCII part; the sources never produce the exotic Unicode space characters). -/
def isJsWs (c : Char) : Bool :=
  c = ' ' || c = '\t' || c = '\n' || c = '\r' || c = '\x0b' || c = '\x0c'

/-- Remove trailing JS whitespace. -/
def trimEnd (s : Str) : Str := (s.reverse.dropWhile isJsWs).reverse

/-- `String.prototype.trim`. -/
def jsTrim (s : Str) : Str := trimEnd (s.dropWhile isJsWs)

/-- `String.prototype.toLowerCase` (ASCII). -/
def lowerStr (s : Str) : Str := s.map Char.toLower

/-- `String.prototype.toUpperCase` (ASCII). -/
def upperStr (s : Str) : Str := s.map Char.toUpper

/-- `String.prototype.includes`: substring test. -/
def hasSub (pat : Str) : Str → Bool
  | [] => pat.isEmpty
  | c :: rest => pat.isPrefixOf (c :: rest) || hasSub pat rest

/-- `String.prototype.includes` specialised to a single character. -/
def hasChar (c : Char) : Str → Bool
  | [] => false
  | a :: rest => a = c || hasChar c rest

/-- Leftmost occurrence of `pat`: returns the text before the match and the
suffix starting at the match (regex `exec` search). -/
def splitAtSub (pat : Str) : Str → Option (Str × Str)
  | [] => if pat.isEmpty then some ([], []) else none
  | c :: rest =>
    if pat.isPrefixOf (c :: rest) then some ([], c :: rest)
    else
      match splitAtSub pat rest with
      | some (pre, suf) => some (c :: pre, suf)
      | none => none

/-- `String.prototype.split` on a single separator character. -/
def splitOnChar (sep : Char) : Str → List Str
  | [] => [[]]
  | c :: rest =>
    if c = sep then [] :: splitOnChar sep rest
    else
      match splitOnChar sep rest with
      | h :: t => (c :: h) :: t
      | [] => [[c]]

/-- `Array.prototype.join` with a single separator character. -/
def joinChar (sep : Char) : List Str → Str
  | [] => []
  | [x] => x
  | x :: y :: t => x ++ sep :: joinChar sep (y :: t)

/-- `filename.split('.').pop()`: the text after the last dot (the whole
name when there is no dot, empty when the name ends with a dot). -/
def extAfterDot (f : Str) : Str := (splitOnChar '.' f).getLastD []

/-- `filename.replace(/\.[^.]+$/, '')`: drop a final ".ext" segment when the
segment after the last dot is nonempty; otherwise leave the name alone. -/
def stripLastExt (f : Str) : Str :=
  let parts := splitOnChar '.' f
  if 2 ≤ parts.length ∧ parts.getLastD [] ≠ [] then joinChar '.' parts.dropLast else f

section StrLemmas

theorem splitOnChar_ne_nil (sep : Char) (s : Str) : splitOnChar sep s ≠ [] := by
  induction s with
  | nil => simp [splitOnChar]
  | cons c rest ih =>
    simp only [splitOnChar]
    split
    · simp
    · cases h : splitOnChar sep rest with
      | nil => simp
      | cons a t => simp

theorem splitOnChar_append_sep (sep : Char) (a b : Str) :
    splitOnChar sep (a ++ sep :: b) = splitOnChar sep a ++ splitOnChar sep b := by
  induction a with
  | nil => simp [splitOnChar]
  | cons c rest ih =>
    by_cases hc : c = sep
    · subst hc
      simp [splitOnChar, ih]
    · simp only [List.cons_append, splitOnChar, if_neg hc, List.append_eq]
      rw [ih]
      cases h : splitOnChar sep rest with
      | nil => exact absurd h (splitOnChar_ne_nil sep rest)
      | cons x t => simp

theorem splitOnChar_no_sep (sep : Char) (s : Str) (h : sep ∉ s) :
    splitOnChar sep s = [s] := by
  induction s with
  | nil => simp [splitOnChar]
  | cons c rest ih =>
    have hc : ¬ c = sep := by
      intro hh
      exact h (by simp [hh])
    have hrest : sep ∉ rest := fun hm => h (List.mem_cons_of_mem _ hm)
    simp [splitOnChar, hc, ih hrest]

theorem joinChar_splitOnChar (sep : Char) (s : Str) :
    joinChar sep (splitOnChar sep s) = s := by
  induction s with
  | nil => simp [splitOnChar, joinChar]
  | cons c rest ih =>
    by_cases hc : c = sep
    · subst hc
      simp only [splitOnChar, if_pos rfl]
      cases h : splitOnChar c rest with
      | nil => exact absurd h (splitOnChar_ne_nil c rest)
      | cons x t =>
        rw [h] at ih
        simp [joinChar, ih]
    · simp only [splitOnChar, if_neg hc]
      cases h : splitOnChar sep rest with
      | nil => exact absurd h (splitOnChar_ne_nil sep rest)
      | cons x t =>
        rw [h] at ih
        cases t with
        | nil => simp_all [joinChar]
        | cons y t2 => simp_all [joinChar]

theorem extAfterDot_append (a t : Str) (ht : '.' ∉ t) :
    extAfterDot (a ++ '.' :: t) = t := by
  unfold extAfterDot
  rw [splitOnChar_append_sep, splitOnChar_no_sep _ _ ht]
  simp

theorem stripLastExt_append (a t : Str) (ht : '.' ∉ t) (hne : t ≠ []) :
    stripLastExt (a ++ '.' :: t) = a := by
  unfold stripLastExt
  rw [splitOnChar_append_sep, splitOnChar_no_sep _ _ ht]
  have hlen : 2 ≤ (splitOnChar '.' a ++ [t]).length := by
    have := splitOnChar_ne_nil '.' a
    have : 1 ≤ (splitOnChar '.' a).length := by
      cases h : splitOnChar '.' a with
      | nil => exact absurd h this
      | cons x l => simp
    simp only [List.length_append, List.length_cons, List.length_nil]
    omega
  have hlast : (splitOnChar '.' a ++ [t]).getLastD [] = t := by simp
  rw [if_pos ⟨hlen, by rw [hlast]; exact hne⟩]
  rw [List.dropLast_append_cons]
  simp [joinChar_splitOnChar]

theorem hasChar_append_self (c : Char) (a t : Str) : hasChar c (a ++ c :: t) = true := by
  induction a with
  | nil => simp [hasChar]
  | cons x rest ih => simp [hasChar, ih]

end StrLemmas

/-! ### `JSON.parse`

`detectContentType` and both `detectFramework` copies call `JSON.parse`.
It is embedded as a fueled recursive-descent parser over `Str`; the fuel is
an upper bound on recursion depth (every recursive call follows the
consumption of at least one input character every other step, so
`2 * length + 4` always suffices). -/

inductive JsonVal where
  | jnull
  | jbool (b : Bool)
  | jnum (lexeme : Str)
  | jstr (s : Str)
  | jarr (elems : List JsonVal)
  | jobj (fields : List (Str × JsonVal))

def isJsonDigit (c : Char) : Bool := Nat.ble 48 c.toNat && Nat.ble c.toNat 57

def hexDigitVal (c : Char) : Option Nat :=
  let n := c.toNat
  if Nat.ble 48 n && Nat.ble n 57 then some (n - 48)
  else if Nat.ble 97 n && Nat.ble n 102 then some (n - 87)
  else if Nat.ble 65 n && Nat.ble n 70 then some (n - 55)
  else none

/-- JSON insignificant whitespace. -/
def jsonWsDrop (s : Str) : Str :=
  s.dropWhile (fun c => c = ' ' || c = '\t' || c = '\n' || c = '\r')

/-- One escape sequence after a backslash inside a JSON string literal.
(`Char.ofNat` maps the invalid surrogate range to the zero character; the
sources never look inside such strings.) -/
def jsonEsc (e : Char) (r : Str) : Option (Char × Str) :=
  if e = '"' then some ('"', r)
  else if e = '\\' then some ('\\', r)
  else if e = '/' then some ('/', r)
  else if e = 'b' then some ('\x08', r)
  else if e = 'f' then some ('\x0c', r)
  else if e = 'n' then some ('\n', r)
  else if e = 'r' then some ('\r', r)
  else if e = 't' then some ('\t', r)
  else if e = 'u' then
    match r with
    | h1 :: h2 :: h3 :: h4 :: rest =>
      match hexDigitVal h1, hexDigitVal h2, hexDigitVal h3, hexDigitVal h4 with
      | some a, some b, some c, some d =>
        some (Char.ofNat (((a * 16 + b) * 16 + c) * 16 + d), rest)
      | _, _, _, _ => none
    | _ => none
  else none

/-- Body of a JSON string literal, after the opening quote; returns the
decoded characters and the remainder after the closing quote. -/
def jsonStringBody : Nat → Str → Option (Str × Str)
  | 0, _ => none
  | _ + 1, [] => none
  | fuel + 1, c :: rest =>
    if c = '"' then some ([], rest)
    else if c = '\\' then
      match rest with
      | [] => none
      | e :: rest2 =>
        match jsonEsc e rest2 with
        | none => none
        | some (ch, rest3) =>
          match jsonStringBody fuel rest3 with
          | some (tail, rem) => some (ch :: tail, rem)
          | none => none
    else if c.toNat < 32 then none
    else
      match jsonStringBody fuel rest with
      | some (tail, rem) => some (c :: tail, rem)
      | none => none

/-- Optional fraction part of a JSON number. -/
def jsonFracPart : Str → Option (Str × Str)
  | '.' :: r =>
    let ds := r.takeWhile isJsonDigit
    if ds = [] then none else some ('.' :: ds, r.drop ds.length)
  | s => some ([], s)

/-- Optional exponent part of a JSON number. -/
def jsonExpPart : Str → Option (Str × Str)
  | [] => some ([], [])
  | e :: r =>
    if e = 'e' || e = 'E' then
      let sgr : Str × Str :=
        match r with
        | '+' :: rr => (['+'], rr)
        | '-' :: rr => (['-'], rr)
        | _ => ([], r)
      let ds := sgr.2.takeWhile isJsonDigit
      if ds = [] then none else some (e :: sgr.1 ++ ds, sgr.2.drop ds.length)
    else some ([], e :: r)

/-- Lexes one JSON number, returning its lexeme and the remainder. -/
def jsonNumberLex (s : Str) : Option (Str × Str) :=
  let sgr : Str × Str :=
    match s with
    | '-' :: r => (['-'], r)
    | _ => ([], s)
  match sgr.2 with
  | [] => none
  | d :: r =>
    if isJsonDigit d then
      let ir : Str × Str :=
        if d = '0' then ([d], r)
        else (d :: r.takeWhile isJsonDigit, r.drop (r.takeWhile isJsonDigit).length)
      match jsonFracPart ir.2 with
      | none => none
      | some (fp, rest1) =>
        match jsonExpPart rest1 with
        | none => none
        | some (ep, rest2) => some (sgr.1 ++ ir.1 ++ fp ++ ep, rest2)
    else none

/-- Parser task: one value, the items of an array, or the fields of an
object (`first` records whether a comma is expected before the next
element). -/
inductive JTask where
  | tval
  | titems (first : Bool)
  | tfields (first : Bool)

/-- Parser result for each task. -/
inductive JRes where
  | rv (v : JsonVal)
  | ri (xs : List JsonVal)
  | rf (fs : List (Str × JsonVal))

/-- Recursive-descent JSON parser (all three mutually recursive procedures
folded into one fueled function so that it is structurally recursive). -/
def jsonP : Nat → JTask → Str → Option (JRes × Str)
  | 0, _, _ => none
  | fuel + 1, .tval, s =>
    match jsonWsDrop s with
    | [] => none
    | c :: rest =>
      if c = '\x7b' then
        match jsonP fuel (.tfields true) rest with
        | some (.rf fs, rem) => some (.rv (.jobj fs), rem)
        | _ => none
      else if c = '[' then
        match jsonP fuel (.titems true) rest with
        | some (.ri xs, rem) => some (.rv (.jarr xs), rem)
        | _ => none
      else if c = '"' then
        match jsonStringBody (rest.length + 1) rest with
        | some (str, rem) => some (.rv (.jstr str), rem)
        | none => none
      else if c = 't' then
        if (strOf "rue").isPrefixOf rest then some (.rv (.jbool true), rest.drop 3) else none
      else if c = 'f' then
        if (strOf "alse").isPrefixOf rest then some (.rv (.jbool false), rest.drop 4) else none
      else if c = 'n' then
        if (strOf "ull").isPrefixOf rest then some (.rv .jnull, rest.drop 3) else none
      else if c = '-' || isJsonDigit c then
        match jsonNumberLex (c :: rest) with
        | some (lex, rem) => some (.rv (.jnum lex), rem)
        | none => none
      else none
  | fuel + 1, .titems first, s =>
    match jsonWsDrop s with
    | [] => none
    | c :: rest =>
      if c = ']' then some (.ri [], rest)
      else if first then
        match jsonP fuel .tval (c :: rest) with
        | some (.rv v, rem) =>
          match jsonP fuel (.titems false) rem with
          | some (.ri xs, rem2) => some (.ri (v :: xs), rem2)
          | _ => none
        | _ => none
      else if c = ',' then
        match jsonP fuel .tval rest with
        | some (.rv v, rem) =>
          match jsonP fuel (.titems false) rem with
          | some (.ri xs, rem2) => some (.ri (v :: xs), rem2)
          | _ => none
        | _ => none
      else none
  | fuel + 1, .tfields first, s =>
    match jsonWsDrop s with
    | [] => none
    | c :: rest =>
      if c = '\x7d' then some (.rf [], rest)
      else
        let keyRest : Option Str :=
          if first then some (c :: rest)
          else if c = ',' then some rest else none
        match keyRest with
        | none => none
        | some s2 =>
          match jsonWsDrop s2 with
          | '"' :: kr =>
            match jsonStringBody (kr.length + 1) kr with
            | some (k, rem) =>
              match jsonWsDrop rem with
              | ':' :: vrem =>
                match jsonP fuel .tval vrem with
                | some (.rv v, rem2) =>
                  match jsonP fuel (.tfields false) rem2 with
                  | some (.rf fs, rem3) => some (.rf ((k, v) :: fs), rem3)
                  | _ => none
                | _ => none
              | _ => none
            | none => none
          | _ => none

/-- `JSON.parse`: parses one JSON value; only whitespace may follow.
Returns `none` where `JSON.parse` throws. -/
def jsonParse (s : Str) : Option JsonVal :=
  match jsonP (2 * s.length + 4) .tval s with
  | some (.rv v, rem) => if jsonWsDrop rem = [] then some v else none
  | _ => none

/-- Whether `JSON.parse` succeeds (the `try { JSON.parse(content) }` probe in
`detectContentType`). -/
def jsonValid (s : Str) : Bool := (jsonParse s).isSome

/-! ### Content-type heuristics (`localInferenceService.ts`, lines 412-499;
the store module holds textually identical copies) -/

/-- `detectContentType`: HTML / CSS / JS-or-JSX / Python / JSON / Markdown /
SQL signature checks in priority order, defaulting to `txt`. -/
def detectContentType (content : Str) : Str :=
  if hasSub (strOf "<html") content || hasSub (strOf "<body") content
      || hasSub (strOf "<div") content then
    strOf "html"
  else if hasChar '\x7b' content && hasChar '\x7d' content
      && (hasChar '#' content || hasChar '.' content || hasChar '@' content) then
    strOf "css"
  else if hasSub (strOf "function") content || hasSub (strOf "const") content
      || hasSub (strOf "let") content || hasSub (strOf "import") content
      || hasSub (strOf "export") content || hasSub (strOf "React") content then
    if hasSub (strOf "React") content
        || (hasChar '<' content && hasSub (strOf "/>") content) then
      strOf "jsx"
    else strOf "js"
  else if hasSub (strOf "def ") content || hasSub (strOf "import ") content
      || hasSub (strOf "from ") content || hasSub (strOf "class ") content
      || hasSub (strOf "print(") content then
    strOf "py"
  else if jsonValid content then strOf "json"
  else if hasSub (strOf "# ") content || hasSub (strOf "## ") content
      || hasSub (strOf "```") content
      || (hasChar '[' content && hasSub (strOf "](") content) then
    strOf "md"
  else if hasSub (strOf "SELECT") (upperStr content)
      || hasSub (strOf "INSERT") (upperStr content)
      || hasSub (strOf "UPDATE") (upperStr content)
      || hasSub (strOf "CREATE") (upperStr content) then
    strOf "sql"
  else strOf "txt"

/-- The `compatibleExtensions` lookup table. -/
def compatibleExtensions (contentType : Str) : Option (List Str) :=
  if contentType = strOf "js" then some [strOf "js", strOf "jsx", strOf "ts", strOf "tsx"]
  else if contentType = strOf "jsx" then some [strOf "js", strOf "jsx", strOf "ts", strOf "tsx"]
  else if contentType = strOf "ts" then some [strOf "js", strOf "jsx", strOf "ts", strOf "tsx"]
  else if contentType = strOf "tsx" then some [strOf "js", strOf "jsx", strOf "ts", strOf "tsx"]
  else if contentType = strOf "py" then some [strOf "py"]
  else if contentType = strOf "html" then some [strOf "html", strOf "htm"]
  else if contentType = strOf "css" then
    some [strOf "css", strOf "scss", strOf "sass", strOf "less"]
  else if contentType = strOf "json" then some [strOf "json"]
  else if contentType = strOf "md" then some [strOf "md", strOf "markdown"]
  else none

/-- `isValidExtensionForContent`: a falsy (empty/absent) extension is
rejected; otherwise the extension must appear in the compatibility row of
the detected content type (`?.includes(extension) || false`). -/
def isValidExtensionForContent (extension : Str) (content : Str) : Bool :=
  if extension = [] then false
  else
    match compatibleExtensions (detectContentType content) with
    | some exts => exts.contains extension
    | none => false

/-- `ensureProperExtension`: keep a content-compatible extension, otherwise
replace (or append) the extension detected from the content. -/
def ensureProperExtension (filename : Str) (content : Str) : Str :=
  if hasChar '.' filename then
    if isValidExtensionForContent (lowerStr (extAfterDot filename)) content then filename
    else stripLastExt filename ++ '.' :: detectContentType content
  else filename ++ '.' :: detectContentType content

/-- The store module's `ensureProperFilename` is textually identical to
`ensureProperExtension`. -/
def ensureProperFilename (filename : Str) (content : Str) : Str :=
  ensureProperExtension filename content

section NormalizationLemmas

/-- `detectContentType` only ever produces one of the nine fixed tags. -/
theorem detectContentType_cases (c : Str) :
    detectContentType c = strOf "html" ∨ detectContentType c = strOf "css" ∨
    detectContentType c = strOf "jsx" ∨ detectContentType c = strOf "js" ∨
    detectContentType c = strOf "py" ∨ detectContentType c = strOf "json" ∨
    detectContentType c = strOf "md" ∨ detectContentType c = strOf "sql" ∨
    detectContentType c = strOf "txt" := by
  unfold detectContentType
  repeat' split
  all_goals simp

/-- Renormalizing a name that already ends in the detected content-type
extension leaves it unchanged. -/
theorem ensureProperExtension_stable (base c : Str) :
    ensureProperExtension (base ++ '.' :: detectContentType c) c
      = base ++ '.' :: detectContentType c := by
  have hgen : ∀ t : Str, detectContentType c = t → t ≠ [] → '.' ∉ t →
      lowerStr t = t →
      ensureProperExtension (base ++ '.' :: t) c = base ++ '.' :: t := by
    intro t ht hne hdot hlow
    unfold ensureProperExtension
    rw [hasChar_append_self, if_pos rfl, extAfterDot_append base t hdot, hlow]
    by_cases hv : isValidExtensionForContent t c = true
    · rw [if_pos hv]
    · rw [if_neg hv, stripLastExt_append base t hdot hne, ht]
  rcases detectContentType_cases c with h | h | h | h | h | h | h | h | h <;>
    exact h ▸ hgen _ h (by decide) (by decide) (by decide)

/-- Claim C8 core: `ensureProperExtension` is idempotent in its filename
argument. -/
theorem ensureProperExtension_idem_aux (f c : Str) :
    ensureProperExtension (ensureProperExtension f c) c = ensureProperExtension f c := by
  by_cases hdot : hasChar '.' f = true
  · by_cases hval : isValidExtensionForContent (lowerStr (extAfterDot f)) c = true
    · have he : ensureProperExtension f c = f := by
        unfold ensureProperExtension
        rw [hdot, if_pos rfl, if_pos hval]
      rw [he]
      exact he
    · have he : ensureProperExtension f c = stripLastExt f ++ '.' :: detectContentType c := by
        unfold ensureProperExtension
        rw [hdot, if_pos rfl, if_neg hval]
      rw [he]
      exact ensureProperExtension_stable _ c
  · have he : ensureProperExtension f c = f ++ '.' :: detectContentType c := by
      unfold ensureProperExtension
      rw [if_neg (by simpa using hdot)]
    rw [he]
    exact ensureProperExtension_stable _ c

end NormalizationLemmas

/-! ### FileMap and the store's `setFiles` -/

/-- `Record<string, string>` in insertion order (JS objects preserve
insertion order for the non-numeric keys these maps use). -/
abbrev FileMap := List (Str × Str)

/-- JS property assignment `m[k] = v`: overwrite in place when the key
exists, append otherwise. -/
def recordSet (m : FileMap) (k v : Str) : FileMap :=
  if m.any (fun e => e.1 = k) then m.map (fun e => if e.1 = k then (k, v) else e)
  else m ++ [(k, v)]

/-- The body of the store's `setFiles`: rebuild the map, passing every key
through `ensureProperFilename` (the functional-updater overload is modelled
by handing over the already-computed new map). -/
def setFilesValidate (newFiles : FileMap) : FileMap :=
  newFiles.foldl (fun acc e => recordSet acc (ensureProperFilename e.1 e.2) e.2) []

/-- The content types whose compatibility row exists in
`compatibleExtensions` (everything `detectContentType` can produce except
`sql` and `txt`). -/
def goodCtypes : List Str :=
  [strOf "html", strOf "css", strOf "jsx", strOf "js", strOf "py", strOf "json", strOf "md"]

theorem detectContentType_no_dot (c : Str) : '.' ∉ detectContentType c := by
  rcases detectContentType_cases c with h | h | h | h | h | h | h | h | h <;>
    rw [h] <;> decide

theorem detectContentType_lower (c : Str) :
    lowerStr (detectContentType c) = detectContentType c := by
  rcases detectContentType_cases c with h | h | h | h | h | h | h | h | h <;>
    rw [h] <;> decide

theorem valid_of_detect_good (c : Str) (h : detectContentType c ∈ goodCtypes) :
    isValidExtensionForContent (detectContentType c) c = true := by
  rcases detectContentType_cases c with hc | hc | hc | hc | hc | hc | hc | hc | hc <;>
    simp only [isValidExtensionForContent, compatibleExtensions, hc] <;>
    first
      | decide
      | (rw [hc] at h; exact absurd h (by decide))

/-- After normalization the key always passes the validity check whenever
the detected content type has a compatibility row. -/
theorem ensure_valid_good (f c : Str) (h : detectContentType c ∈ goodCtypes) :
    isValidExtensionForContent (lowerStr (extAfterDot (ensureProperFilename f c))) c
      = true := by
  have step : ∀ base : Str,
      isValidExtensionForContent
        (lowerStr (extAfterDot (base ++ '.' :: detectContentType c))) c = true := by
    intro base
    rw [extAfterDot_append _ _ (detectContentType_no_dot c), detectContentType_lower]
    exact valid_of_detect_good c h
  unfold ensureProperFilename ensureProperExtension
  by_cases hdot : hasChar '.' f = true
  · by_cases hval : isValidExtensionForContent (lowerStr (extAfterDot f)) c = true
    · rw [hdot, if_pos rfl, if_pos hval]
      exact hval
    · rw [hdot, if_pos rfl, if_neg hval]
      exact step _
  · rw [if_neg (by simpa using hdot)]
    exact step _

theorem recordSet_mem {m : FileMap} {k v : Str} {p : Str × Str}
    (hp : p ∈ recordSet m k v) : p ∈ m ∨ p = (k, v) := by
  unfold recordSet at hp
  split at hp
  · rcases List.mem_map.mp hp with ⟨e, he, heq⟩
    by_cases hk : e.1 = k
    · right
      rw [if_pos hk] at heq
      exact heq.symm
    · left
      rw [if_neg hk] at heq
      exact heq ▸ he
  · rcases List.mem_append.mp hp with h | h
    · exact Or.inl h
    · right
      simpa using h

/-- Every entry written by `setFiles` is a normalized key together with the
content it was normalized against. -/
theorem setFilesValidate_mem {l : FileMap} {p : Str × Str}
    (hp : p ∈ setFilesValidate l) :
    ∃ e ∈ l, p = (ensureProperFilename e.1 e.2, e.2) := by
  suffices hgen : ∀ acc : FileMap,
      (∀ q ∈ acc, ∃ e ∈ l, q = (ensureProperFilename e.1 e.2, e.2)) →
      (∀ e0 ∈ l, True) →
      ∀ q ∈ l.foldl (fun acc e => recordSet acc (ensureProperFilename e.1 e.2) e.2) acc,
        ∃ e ∈ l, q = (ensureProperFilename e.1 e.2, e.2) by
    exact hgen [] (by simp) (by simp) p hp
  intro acc
  -- strengthen: do induction over an arbitrary sublist while remembering
  -- that its members come from l
  suffices hrec : ∀ (sub : FileMap), (∀ e ∈ sub, e ∈ l) →
      ∀ acc : FileMap,
      (∀ q ∈ acc, ∃ e ∈ l, q = (ensureProperFilename e.1 e.2, e.2)) →
      ∀ q ∈ sub.foldl (fun acc e => recordSet acc (ensureProperFilename e.1 e.2) e.2) acc,
        ∃ e ∈ l, q = (ensureProperFilename e.1 e.2, e.2) by
    intro hacc _
    exact hrec l (fun _ he => he) acc hacc
  intro sub
  induction sub with
  | nil =>
    intro _ acc hacc q hq
    exact hacc q hq
  | cons e rest ih =>
    intro hsub acc hacc q hq
    simp only [List.foldl_cons] at hq
    refine ih (fun x hx => hsub x (List.mem_cons_of_mem _ hx)) _ ?_ q hq
    intro q2 hq2
    rcases recordSet_mem hq2 with h | h
    · exact hacc q2 h
    · exact ⟨e, hsub e (List.mem_cons_self _ _), h⟩

/-! ### `processAICodeActions` (store module, lines 6-33)

The `[CREATE: path]...[/CREATE]` and `[MODIFY: path]...[/MODIFY]` directive
regexes.  A `g`-flag `exec` loop is embedded as a fueled scan: find the
leftmost occurrence of the literal marker; attempt the rest of the pattern
there; on success resume after the match, on failure resume one character
past the match start (the marker literal cannot overlap itself, so the next
candidate is the next marker occurrence).  The regex piece `\s*\n` after
the `]` is embedded as "consume the longest whitespace run that ends in a
newline", which agrees with the backtracking regex whenever the content
does not begin with a whitespace character (part of well-formedness
below). -/

def createMarker : Str := strOf "[CREATE:"

def createTerm : Str := strOf "\n[/CREATE]"

def modifyMarker : Str := strOf "[MODIFY:"

def modifyTerm : Str := strOf "\n[/MODIFY]"

/-- Consume `\s*\n`: the longest whitespace run ending in a newline. -/
def dropThroughLastNl (s : Str) : Option Str :=
  let w := s.takeWhile isJsWs
  if hasChar '\n' w then
    some (s.drop (w.length - (w.reverse.takeWhile (fun c => c ≠ '\n')).length))
  else none

/-- The directive pattern after its marker literal: `\s*([^\]]+)\]\s*\n`
then the lazy content up to the first terminator occurrence.  Returns the
raw path capture, the raw content capture and the rest of the input after
the match. -/
def directiveParseAfter (term : Str) (tail : Str) : Option ((Str × Str) × Str) :=
  let rawPath := tail.takeWhile (fun c => c ≠ ']')
  match tail.dropWhile (fun c => c ≠ ']') with
  | [] => none
  | _ :: rest2 =>
    if rawPath = [] then none
    else
      match dropThroughLastNl rest2 with
      | none => none
      | some rest3 =>
        match splitAtSub term rest3 with
        | none => none
        | some (content, suf) => some ((rawPath, content), suf.drop term.length)

/-- The `exec` loop over one directive regex, with both captures passed
through `.trim()` as in `processAICodeActions`. -/
def directiveScan (marker term : Str) : Nat → Str → List (Str × Str)
  | 0, _ => []
  | fuel + 1, s =>
    match splitAtSub marker s with
    | none => []
    | some (_, suf) =>
      match directiveParseAfter term (suf.drop marker.length) with
      | none => directiveScan marker term fuel (suf.drop 1)
      | some ((p, c), rest) => (jsTrim p, jsTrim c) :: directiveScan marker term fuel rest

/-- All `[CREATE: path]...[/CREATE]` directives of a model response, in
order, as (trimmed path, trimmed content) pairs. -/
def extractCreateActions (s : Str) : List (Str × Str) :=
  directiveScan createMarker createTerm (s.length + 1) s

/-- All `[MODIFY: path]...[/MODIFY]` directives. -/
def extractModifyActions (s : Str) : List (Str × Str) :=
  directiveScan modifyMarker modifyTerm (s.length + 1) s

/-- One file-system call issued through `apiClient.executeAIOperation`. -/
structure AIOperation where
  op : Str
  path : Str
  content : Str
deriving DecidableEq

/-- `processAICodeActions`: every CREATE directive becomes a `create`
operation, then every MODIFY directive becomes a `write` operation (each
call is individually wrapped in try/catch, so a failing operation is logged
and skipped without stopping the batch). -/
def processAICodeActions (aiResponse : Str) : List AIOperation :=
  (extractCreateActions aiResponse).map (fun a => ⟨strOf "create", a.1, a.2⟩)
    ++ (extractModifyActions aiResponse).map (fun a => ⟨strOf "write", a.1, a.2⟩)

/-- A well-formed directive path: nonempty, no `]`, no whitespace. -/
def WFCreatePath (p : Str) : Prop :=
  p ≠ [] ∧ ∀ a ∈ p, a ≠ ']' ∧ isJsWs a = false

/-- A well-formed directive body: nonempty, starting with a non-whitespace
character, not containing the closing delimiter. -/
def WFCreateContent (c : Str) : Prop :=
  c ≠ [] ∧ isJsWs (c.headD ']') = false ∧ ¬ createTerm <:+: c

def WFCreateBlock (b : Str × Str) : Prop := WFCreatePath b.1 ∧ WFCreateContent b.2

instance (p : Str) : Decidable (WFCreatePath p) := by
  unfold WFCreatePath
  infer_instance

instance (c : Str) : Decidable (WFCreateContent c) := by
  unfold WFCreateContent
  infer_instance

instance (b : Str × Str) : Decidable (WFCreateBlock b) := by
  unfold WFCreateBlock
  infer_instance

/-- A model output built from well-formed blocks, one per line group. -/
def renderCreateBlock (b : Str × Str) : Str :=
  strOf "[CREATE: " ++ (b.1 ++ (strOf "]\n" ++ (b.2 ++ strOf "\n[/CREATE]\n")))

def renderCreateBlocks : List (Str × Str) → Str
  | [] => []
  | b :: bs => renderCreateBlock b ++ renderCreateBlocks bs

section CreateRoundTrip

theorem splitAtSub_of_prefix {pat s : Str} (hne : pat ≠ []) (h : pat <+: s) :
    splitAtSub pat s = some ([], s) := by
  cases s with
  | nil =>
    rcases h with ⟨t, ht⟩
    exact absurd (List.append_eq_nil.mp ht).1 hne
  | cons c rest =>
    have hb : pat.isPrefixOf (c :: rest) = true := List.isPrefixOf_iff_prefix.mpr h
    simp [splitAtSub, hb]

theorem splitAtSub_cons_of_not {pat : Str} {a : Char} {t : Str}
    (h : ¬ pat <+: (a :: t)) :
    splitAtSub pat (a :: t) =
      match splitAtSub pat t with
      | some (pre, suf) => some (a :: pre, suf)
      | none => none := by
  have hb : pat.isPrefixOf (a :: t) = false := by
    rw [Bool.eq_false_iff]
    intro hc
    exact h (List.isPrefixOf_iff_prefix.mp hc)
  simp [splitAtSub, hb]

/-- No proper suffix-by-drop of `pat` is a prefix of `pat`: the pattern
cannot overlap itself, so an occurrence cannot straddle the boundary
between preceding text and the pattern. -/
def noSelfOverlap (pat : Str) : Prop :=
  ∀ k, 0 < k → k < pat.length → ¬ (pat.drop k) <+: pat

theorem splitAtSub_concat {pat : Str} (c z : Str) (hne : pat ≠ [])
    (hnb : noSelfOverlap pat) (hnc : ¬ pat <:+: c) :
    splitAtSub pat (c ++ (pat ++ z)) = some (c, pat ++ z) := by
  induction c with
  | nil =>
    simpa using splitAtSub_of_prefix hne (List.prefix_append pat z)
  | cons a c' ih =>
    have hnc' : ¬ pat <:+: c' := fun h => hnc (List.infix_cons h)
    have hnp : ¬ pat <+: ((a :: c') ++ (pat ++ z)) := by
      intro hpre
      by_cases hle : pat.length ≤ (a :: c').length
      · have : pat <+: (a :: c') := (List.isPrefix_append_of_length hle).mp hpre
        exact hnc this.isInfix
      · push_neg at hle
        have htake := List.prefix_iff_eq_take.mp hpre
        rw [List.take_append_eq_append_take,
          List.take_of_length_le (le_of_lt hle)] at htake
        have hq : pat.drop (a :: c').length
            = List.take (pat.length - (a :: c').length) (pat ++ z) := by
          conv_lhs => rw [htake]
          rw [List.drop_left]
        rw [List.take_append_of_le_length (by omega)] at hq
        have : pat.drop (a :: c').length <+: pat := by
          rw [hq]
          exact List.take_prefix _ _
        exact hnb (a :: c').length (by simp) hle this
    have hnp' : ¬ pat <+: (a :: (c' ++ (pat ++ z))) := by simpa using hnp
    rw [List.cons_append, splitAtSub_cons_of_not hnp', ih hnc']

theorem takeWhile_append_stop (p : Char → Bool) (l₁ : Str) (x : Char) (l₂ : Str)
    (h : ∀ a ∈ l₁, p a = true) (hx : p x = false) :
    (l₁ ++ x :: l₂).takeWhile p = l₁ ∧ (l₁ ++ x :: l₂).dropWhile p = x :: l₂ := by
  induction l₁ with
  | nil => simp [List.takeWhile_cons, List.dropWhile_cons, hx]
  | cons a t ih =>
    have ha : p a = true := h a (List.mem_cons_self _ _)
    have ht := ih (fun b hb => h b (List.mem_cons_of_mem _ hb))
    simp [List.takeWhile_cons, List.dropWhile_cons, ha, ht.1, ht.2]

theorem dropWhile_all_false (p : Char → Bool) (l : Str)
    (h : ∀ a ∈ l, p a = false) : l.dropWhile p = l := by
  cases l with
  | nil => rfl
  | cons a t => simp [List.dropWhile_cons, h a (List.mem_cons_self _ _)]

theorem jsTrim_nows (p : Str) (h : ∀ a ∈ p, isJsWs a = false) : jsTrim p = p := by
  unfold jsTrim trimEnd
  rw [dropWhile_all_false _ _ h, dropWhile_all_false, List.reverse_reverse]
  intro a ha
  exact h a (List.mem_reverse.mp ha)

theorem jsTrim_cons_ws (w : Char) (hw : isJsWs w = true) (p : Str) :
    jsTrim (w :: p) = jsTrim p := by
  unfold jsTrim
  rw [List.dropWhile_cons, if_pos hw]

theorem dropThroughLastNl_cons_nl (c z : Str) (hc : c ≠ [])
    (hh : isJsWs (c.headD ']') = false) :
    dropThroughLastNl ('\n' :: (c ++ z)) = some (c ++ z) := by
  cases c with
  | nil => exact absurd rfl hc
  | cons h t =>
    have hh' : isJsWs h = false := hh
    have hw : ('\n' :: (h :: (t ++ z))).takeWhile isJsWs = ['\n'] := by
      rw [List.takeWhile_cons, if_pos (by decide : isJsWs '\n' = true),
        List.takeWhile_cons, if_neg (by simp [hh'])]
    unfold dropThroughLastNl
    simp only [List.cons_append]
    rw [hw]
    simp [hasChar]

theorem directiveScan_cons_skip (marker term : Str) (f : Nat) (a : Char) (t : Str)
    (h : ¬ marker <+: (a :: t)) :
    directiveScan marker term (f + 1) (a :: t) = directiveScan marker term (f + 1) t := by
  simp only [directiveScan]
  rw [splitAtSub_cons_of_not h]
  cases hsp : splitAtSub marker t with
  | none => rfl
  | some pr =>
    cases pr with
    | mk pre suf => rfl

theorem noSelfOverlap_createTerm : noSelfOverlap createTerm := by
  intro k h1 h2
  have hlen : createTerm.length = 10 := rfl
  rw [hlen] at h2
  interval_cases k <;> decide

theorem renderCreateBlock_decomp (p c rest : Str) :
    renderCreateBlock (p, c) ++ rest
      = createMarker
          ++ (' ' :: (p ++ (']' :: '\n' :: (c ++ (createTerm ++ ('\n' :: rest)))))) := by
  unfold renderCreateBlock createMarker createTerm
  simp only [List.append_assoc, List.cons_append, List.nil_append]
  rfl

theorem directiveScan_render :
    ∀ (bs : List (Str × Str)), (∀ b ∈ bs, WFCreateBlock b) →
    ∀ fuel, (renderCreateBlocks bs).length < fuel →
      directiveScan createMarker createTerm fuel (renderCreateBlocks bs)
        = bs.map (fun b => (b.1, jsTrim b.2)) := by
  intro bs
  induction bs with
  | nil =>
    intro _ fuel hf
    cases fuel with
    | zero => omega
    | succ f =>
      simp only [renderCreateBlocks, directiveScan]
      rw [show splitAtSub createMarker [] = none from by decide]
      simp
  | cons b bs ih =>
    intro hwf fuel hf
    obtain ⟨p, c⟩ := b
    obtain ⟨⟨hpne, hpch⟩, hcne, hch, hcterm⟩ := hwf (p, c) (List.mem_cons_self _ _)
    have hwf' : ∀ x ∈ bs, WFCreateBlock x := fun x hx => hwf x (List.mem_cons_of_mem _ hx)
    cases fuel with
    | zero => omega
    | succ f =>
      have hr : renderCreateBlocks ((p, c) :: bs)
          = createMarker
              ++ (' ' :: (p ++ (']' :: '\n' ::
                  (c ++ (createTerm ++ ('\n' :: renderCreateBlocks bs)))))) := by
        show renderCreateBlock (p, c) ++ renderCreateBlocks bs = _
        exact renderCreateBlock_decomp p c _
      rw [hr] at hf ⊢
      have hsplit : splitAtSub createMarker
          (createMarker
            ++ (' ' :: (p ++ (']' :: '\n' ::
                (c ++ (createTerm ++ ('\n' :: renderCreateBlocks bs)))))))
          = some ([], createMarker
              ++ (' ' :: (p ++ (']' :: '\n' ::
                  (c ++ (createTerm ++ ('\n' :: renderCreateBlocks bs))))))) :=
        splitAtSub_of_prefix (by decide) (List.prefix_append _ _)
      have hstop := takeWhile_append_stop (fun ch => ch ≠ ']') (' ' :: p) ']'
          ('\n' :: (c ++ (createTerm ++ ('\n' :: renderCreateBlocks bs))))
          (by
            intro a ha
            rcases List.mem_cons.mp ha with h | h
            · simp [h]
            · simp [(hpch a h).1])
          (by simp)
      have hshape : (' ' :: (p ++ (']' :: '\n' ::
              (c ++ (createTerm ++ ('\n' :: renderCreateBlocks bs))))))
          = (' ' :: p) ++ (']' :: ('\n' ::
              (c ++ (createTerm ++ ('\n' :: renderCreateBlocks bs))))) := by
        simp
      have hparse : directiveParseAfter createTerm
          (' ' :: (p ++ (']' :: '\n' ::
              (c ++ (createTerm ++ ('\n' :: renderCreateBlocks bs))))))
          = some ((' ' :: p, c), '\n' :: renderCreateBlocks bs) := by
        have h4 := dropThroughLastNl_cons_nl c
          (createTerm ++ ('\n' :: renderCreateBlocks bs)) hcne hch
        have h5 := @splitAtSub_concat createTerm c
          ('\n' :: renderCreateBlocks bs) (by decide) noSelfOverlap_createTerm hcterm
        unfold directiveParseAfter
        rw [hshape]
        simp at hstop
        simp [hstop.1, hstop.2, h4, h5, List.drop_left]
      have hdrop : (createMarker
          ++ (' ' :: (p ++ (']' :: '\n' ::
              (c ++ (createTerm ++ ('\n' :: renderCreateBlocks bs))))))).drop
            createMarker.length
          = (' ' :: (p ++ (']' :: '\n' ::
              (c ++ (createTerm ++ ('\n' :: renderCreateBlocks bs)))))) :=
        List.drop_left _ _
      simp only [directiveScan, hsplit, hdrop, hparse]
      have htrimp : jsTrim (' ' :: p) = p := by
        rw [jsTrim_cons_ws ' ' (by decide) p]
        exact jsTrim_nows p (fun a ha => (hpch a ha).2)
      have hflen : (renderCreateBlocks bs).length < f ∧ 1 ≤ f := by
        have hlen2 : (createMarker
            ++ (' ' :: (p ++ (']' :: '\n' ::
                (c ++ (createTerm ++ ('\n' :: renderCreateBlocks bs))))))).length
            = 22 + p.length + c.length + (renderCreateBlocks bs).length := by
          simp only [List.length_append, List.length_cons]
          rw [show createMarker.length = 8 from rfl, show createTerm.length = 10 from rfl]
          omega
        rw [hlen2] at hf
        omega
      obtain ⟨hflt, hfpos⟩ := hflen
      cases f with
      | zero => omega
      | succ f2 =>
        have hnp2 : ¬ createMarker <+: ('\n' :: renderCreateBlocks bs) := by
          rw [show createMarker = '[' :: strOf "CREATE:" from rfl, List.cons_prefix_cons]
          simp
        rw [directiveScan_cons_skip _ _ f2 '\n' _ hnp2]
        rw [ih hwf' (f2 + 1) hflt]
        simp [htrimp]

end CreateRoundTrip

/-! ### `extractFiles` (localInferenceService.ts, lines 307-350)

Tier 1 is the case-insensitive regex
`\[FILE:\s*([a-zA-Z0-9\/\._-]+)\]\s*(?:```[a-z]*\n)?([\s\S]*?)(?:\n?```|\n?\[\/FILE\]|$)`;
tier 2 (`extractCodeBlocks`) is `/```(\w+)?\s*\n([\s\S]*?)```/gi`.  The
lazy content capture together with its `\n?`-prefixed terminators is
embedded as "scan for the earliest position where a terminator alternative
matches"; the `$` alternative makes the scan total. -/

/-- Case-insensitive literal prefix test (the regex `i` flag). -/
def ciBeginsWith (pat s : Str) : Bool := (lowerStr pat).isPrefixOf (lowerStr s)

/-- Leftmost case-insensitive occurrence of `pat`. -/
def splitAtSubCI (pat : Str) : Str → Option (Str × Str)
  | [] => if pat.isEmpty then some ([], []) else none
  | c :: rest =>
    if ciBeginsWith pat (c :: rest) then some ([], c :: rest)
    else
      match splitAtSubCI pat rest with
      | some (pre, suf) => some (c :: pre, suf)
      | none => none

/-- The character class `[a-zA-Z0-9\/\._-]` of the FILE path capture. -/
def isAsciiLetter (c : Char) : Bool :=
  (Nat.ble 97 c.toNat && Nat.ble c.toNat 122)
    || (Nat.ble 65 c.toNat && Nat.ble c.toNat 90)

def fileNameChar (c : Char) : Bool :=
  isAsciiLetter c || isJsonDigit c
    || c = '/' || c = '.' || c = '_' || c = '-'

/-- `\w` for the fence language capture. -/
def isWordChar (c : Char) : Bool :=
  isAsciiLetter c || isJsonDigit c || c = '_'

/-- Lazy FILE content capture: stops at the earliest `\n?```” / `\n?[/FILE]`
(case-insensitive) terminator, or at the end of input (`$`); returns the
content and the rest after the terminator. -/
def fileContentSplit : Str → (Str × Str)
  | [] => ([], [])
  | c :: rest =>
    if (strOf "\n```").isPrefixOf (c :: rest) then ([], (c :: rest).drop 4)
    else if (strOf "```").isPrefixOf (c :: rest) then ([], (c :: rest).drop 3)
    else if ciBeginsWith (strOf "\n[/FILE]") (c :: rest) then ([], (c :: rest).drop 8)
    else if ciBeginsWith (strOf "[/FILE]") (c :: rest) then ([], (c :: rest).drop 7)
    else
      match fileContentSplit rest with
      | (content, rem) => (c :: content, rem)

/-- The optional opening fence `(?:```[a-z]*\n)?` (case-insensitive, so the
language letters may be either case); consumes nothing when the group does
not match. -/
def fenceOpenSkip (s : Str) : Str :=
  if (strOf "```").isPrefixOf s then
    let after := s.drop 3
    let langRun := after.takeWhile isAsciiLetter
    match after.drop langRun.length with
    | '\n' :: rest => rest
    | _ => s
  else s

/-- The FILE pattern after its `[FILE:` marker. -/
def fileParseAfter (tail : Str) : Option ((Str × Str) × Str) :=
  let afterWs := tail.drop (tail.takeWhile isJsWs).length
  let name := afterWs.takeWhile fileNameChar
  if name = [] then none
  else
    match afterWs.drop name.length with
    | ']' :: rest2 =>
      let rest3 := fenceOpenSkip (rest2.drop (rest2.takeWhile isJsWs).length)
      match fileContentSplit rest3 with
      | (content, rest4) => some ((name, content), rest4)
    | _ => none

/-- The `exec` loop for the FILE regex. -/
def fileScan : Nat → Str → List (Str × Str)
  | 0, _ => []
  | fuel + 1, s =>
    match splitAtSubCI (strOf "[FILE:") s with
    | none => []
    | some (_, suf) =>
      match fileParseAfter (suf.drop 6) with
      | none => fileScan fuel (suf.drop 1)
      | some ((nm, ct), rest) => (nm, ct) :: fileScan fuel rest

/-- The `extensions` language→extension table of `generateFilename`
(`extensions[language] || 'txt'`). -/
def extensionForLanguage (lang : Str) : Str :=
  if lang = strOf "javascript" then strOf "js"
  else if lang = strOf "js" then strOf "js"
  else if lang = strOf "jsx" then strOf "jsx"
  else if lang = strOf "typescript" then strOf "ts"
  else if lang = strOf "ts" then strOf "ts"
  else if lang = strOf "tsx" then strOf "tsx"
  else if lang = strOf "python" then strOf "py"
  else if lang = strOf "py" then strOf "py"
  else if lang = strOf "html" then strOf "html"
  else if lang = strOf "htm" then strOf "html"
  else if lang = strOf "css" then strOf "css"
  else if lang = strOf "scss" then strOf "scss"
  else if lang = strOf "sass" then strOf "sass"
  else if lang = strOf "less" then strOf "less"
  else if lang = strOf "json" then strOf "json"
  else if lang = strOf "xml" then strOf "xml"
  else if lang = strOf "yaml" then strOf "yaml"
  else if lang = strOf "yml" then strOf "yml"
  else if lang = strOf "markdown" then strOf "md"
  else if lang = strOf "md" then strOf "md"
  else if lang = strOf "sql" then strOf "sql"
  else if lang = strOf "bash" then strOf "sh"
  else if lang = strOf "shell" then strOf "sh"
  else if lang = strOf "java" then strOf "java"
  else if lang = strOf "cpp" then strOf "cpp"
  else if lang = strOf "c" then strOf "c"
  else if lang = strOf "csharp" then strOf "cs"
  else if lang = strOf "cs" then strOf "cs"
  else if lang = strOf "php" then strOf "php"
  else if lang = strOf "ruby" then strOf "rb"
  else if lang = strOf "rb" then strOf "rb"
  else if lang = strOf "go" then strOf "go"
  else if lang = strOf "rust" then strOf "rs"
  else if lang = strOf "rs" then strOf "rs"
  else strOf "txt"

/-- The keyword-and-colon part `(?:file|filename|name):` of the embedded
filename-comment regex (alternatives tried in order, case-insensitively). -/
def kwColonSplit (s1 : Str) : Option Str :=
  let tk : Str → Option Str := fun kw =>
    match s1.drop kw.length with
    | ':' :: r => if ciBeginsWith kw s1 then some r else none
    | _ => none
  match tk (strOf "file") with
  | some r => some r
  | none =>
    match tk (strOf "filename") with
    | some r => some r
    | none => tk (strOf "name")

/-- The capture `\s*([^\n\r]+)` after the colon: greedy whitespace, then at
least one character up to the end of the line; at the end of the input the
regex backtracks, handing the trailing non-newline whitespace to the
capture. -/
def captureLineTail (rest : Str) : Option Str :=
  let u := rest.takeWhile isJsWs
  let v := (rest.drop u.length).takeWhile (fun c => c ≠ '\n' && c ≠ '\r')
  if v ≠ [] then some v
  else
    let tr := u.reverse.takeWhile (fun c => c ≠ '\n' && c ≠ '\r')
    if tr = [] then none else some tr.reverse

/-- Leftmost match of the filename-comment regex
`(?:\/\/|#|<!--|--)\s*(?:file|filename|name):\s*([^\n\r]+)` (flag `i`),
returning the raw capture. -/
def commentNameScan : Nat → Str → Option Str
  | 0, _ => none
  | fuel + 1, s =>
    match s with
    | [] => none
    | c :: rest =>
      let openerLen : Option Nat :=
        if (strOf "//").isPrefixOf (c :: rest) then some 2
        else if c = '#' then some 1
        else if (strOf "<!--").isPrefixOf (c :: rest) then some 4
        else if (strOf "--").isPrefixOf (c :: rest) then some 2
        else none
      match openerLen with
      | none => commentNameScan fuel rest
      | some n =>
        let after := (c :: rest).drop n
        match kwColonSplit (after.drop (after.takeWhile isJsWs).length) with
        | none => commentNameScan fuel rest
        | some r =>
          match captureLineTail r with
          | none => commentNameScan fuel rest
          | some cap => some cap

/-- Decimal digits of a number (JS template interpolation of `index + 1`). -/
def natDigits (n : Nat) : Str := (Nat.repr n).data

/-- `generateFilename`: prefer an embedded filename comment (used verbatim
after trimming); otherwise special-case leading html/css blocks and
JS-content hints; otherwise `language` + index + mapped extension. -/
def generateFilename (language : Str) (index : Nat) (content : Str) : Str :=
  match commentNameScan (content.length + 1) content with
  | some nm => jsTrim nm
  | none =>
    let ext := extensionForLanguage language
    if language = strOf "html" && index = 0 then strOf "index.html"
    else if language = strOf "css" && index = 0 then strOf "styles.css"
    else if (language = strOf "javascript" || language = strOf "js")
        && (hasSub (strOf "React") content || hasSub (strOf "import React") content) then
      strOf "component" ++ natDigits (index + 1) ++ strOf ".jsx"
    else if (language = strOf "javascript" || language = strOf "js")
        && (hasSub (strOf "function") content || hasSub (strOf "const") content
            || hasSub (strOf "let") content) then
      strOf "script" ++ natDigits (index + 1) ++ strOf ".js"
    else language ++ natDigits (index + 1) ++ '.' :: ext

/-- The `exec` loop of `extractCodeBlocks`: each accepted block (trimmed
content longer than 10 characters) is named with the running accepted-block
index. -/
def codeBlockScan : Nat → Nat → Str → List (Str × Str)
  | 0, _, _ => []
  | fuel + 1, blockIndex, s =>
    match splitAtSub (strOf "```") s with
    | none => []
    | some (_, suf) =>
      let tail := suf.drop 3
      let langRun := tail.takeWhile isWordChar
      match dropThroughLastNl (tail.drop langRun.length) with
      | none => codeBlockScan fuel blockIndex (suf.drop 1)
      | some rest =>
        match splitAtSub (strOf "```") rest with
        | none => codeBlockScan fuel blockIndex (suf.drop 1)
        | some (contentRaw, suf2) =>
          let content := jsTrim contentRaw
          if 10 < content.length then
            let language := if langRun = [] then strOf "text" else lowerStr langRun
            (generateFilename language blockIndex content, content)
              :: codeBlockScan fuel (blockIndex + 1) (suf2.drop 3)
          else codeBlockScan fuel blockIndex (suf2.drop 3)

/-- `extractCodeBlocks`: assemble the scanned blocks into a record. -/
def extractCodeBlocks (text : Str) : FileMap :=
  (codeBlockScan (text.length + 1) 0 text).foldl
    (fun acc nc => recordSet acc nc.1 nc.2) []

/-- `extractFiles`: tier-1 FILE directives (with per-entry trimming and
`ensureProperExtension` normalization); when that yields nothing, fall back
to fenced code blocks. -/
def extractFiles (text : Str) : FileMap :=
  let tier1 := (fileScan (text.length + 1) text).foldl
    (fun acc nc =>
      recordSet acc (ensureProperExtension (jsTrim nc.1) (jsTrim nc.2)) (jsTrim nc.2)) []
  if tier1 = [] then extractCodeBlocks text else tier1

/-! ### Framework detection

Two copies exist in the sources: the distiller's (`IMPORTS/EXPORTS` tail,
lines 230-283, with a fastify tier) and the store module's local copy
(part_005 lines 36-63, without a fastify tier).  Both read
`files['package.json']`, treat a missing or empty manifest and any
`JSON.parse` failure as "no dependencies", and merge
`{...pkg.dependencies, ...pkg.devDependencies}` (devDependencies win). -/

structure FrameworkInfo where
  ftype : Str
  version : Option JsonVal
  features : List Str

/-- `files[k]` for a `Record<string, string>`. -/
def recordGet (m : FileMap) (k : Str) : Option Str :=
  (m.find? (fun e => e.1 = k)).map (fun e => e.2)

/-- Object field lookup; `JSON.parse` keeps the last duplicate key. -/
def jFieldLast (fields : List (Str × JsonVal)) (k : Str) : Option JsonVal :=
  ((fields.filter (fun f => f.1 = k)).getLast?).map (fun f => f.2)

def objFieldsOf : JsonVal → List (Str × JsonVal)
  | .jobj fs => fs
  | _ => []

/-- Lookup in `{...pkg.dependencies, ...pkg.devDependencies}`: a key in
`devDependencies` wins.  Spreading a non-object value contributes no
package-name keys (a string spread yields numeric-index keys only), so
non-object dependency fields are treated as empty. -/
def depsLookup (pkg : JsonVal) (k : Str) : Option JsonVal :=
  let deps := objFieldsOf ((jFieldLast (objFieldsOf pkg) (strOf "dependencies")).getD .jnull)
  let dev :=
    objFieldsOf ((jFieldLast (objFieldsOf pkg) (strOf "devDependencies")).getD .jnull)
  match jFieldLast dev k with
  | some v => some v
  | none => jFieldLast deps k

/-- Whether a JSON number lexeme denotes zero (all mantissa digits 0). -/
def numLexZero (lex : Str) : Bool :=
  ((lex.takeWhile (fun c => c ≠ 'e' && c ≠ 'E')).filter isJsonDigit).all (fun c => c = '0')

/-- JS truthiness of a parsed JSON value. -/
def jsTruthy : JsonVal → Bool
  | .jnull => false
  | .jbool b => b
  | .jnum lex => !(numLexZero lex)
  | .jstr s => !s.isEmpty
  | .jarr _ => true
  | .jobj _ => true

/-- The merged-dependency environment of a FileMap: `none` everywhere when
the manifest is missing, falsy (empty) or unparsable. -/
def manifestDeps (files : FileMap) : Str → Option JsonVal :=
  match recordGet files (strOf "package.json") with
  | none => fun _ => none
  | some pj =>
    if pj = [] then fun _ => none
    else
      match jsonParse pj with
      | none => fun _ => none
      | some pkg => depsLookup pkg

/-- `deps[k]` used as a condition (`undefined` is falsy). -/
def dTruthy (d : Str → Option JsonVal) (k : Str) : Bool :=
  match d k with
  | some v => jsTruthy v
  | none => false

namespace Distill

/-- The distiller's `detectFramework` (with the fastify tier). -/
def detectFramework (files : FileMap) : FrameworkInfo :=
  let d := manifestDeps files
  if dTruthy d (strOf "react") then
    if dTruthy d (strOf "next") then
      { ftype := strOf "nextjs", version := d (strOf "next"),
        features := [strOf "JSX", strOf "Hooks", strOf "Components",
          strOf "SSR", strOf "API Routes", strOf "App Router"] }
    else
      { ftype := strOf "react", version := d (strOf "react"),
        features := [strOf "JSX", strOf "Hooks", strOf "Components"] }
  else if dTruthy d (strOf "vue") then
    if dTruthy d (strOf "nuxt") then
      { ftype := strOf "nuxt", version := d (strOf "nuxt"),
        features := [strOf "Vue Components", strOf "Reactivity", strOf "Templates",
          strOf "SSR", strOf "Auto-imports", strOf "Modules"] }
    else
      { ftype := strOf "vue", version := d (strOf "vue"),
        features := [strOf "Vue Components", strOf "Reactivity", strOf "Templates"] }
  else if dTruthy d (strOf "svelte") then
    { ftype := strOf "svelte", version := d (strOf "svelte"),
      features := [strOf "Components", strOf "Reactivity", strOf "Stores"] }
  else if dTruthy d (strOf "@angular/core") then
    { ftype := strOf "angular", version := d (strOf "@angular/core"),
      features := [strOf "Components", strOf "Services", strOf "Modules",
        strOf "Dependency Injection"] }
  else if dTruthy d (strOf "express") then
    { ftype := strOf "express", version := d (strOf "express"),
      features := [strOf "Middleware", strOf "Routing", strOf "REST API"] }
  else if dTruthy d (strOf "fastify") then
    { ftype := strOf "fastify", version := d (strOf "fastify"),
      features := [strOf "Plugins", strOf "Hooks", strOf "Validation"] }
  else
    { ftype := strOf "vanilla", version := none,
      features := [strOf "HTML", strOf "CSS", strOf "JavaScript"] }

end Distill

namespace Store

/-- The store module's local `detectFramework` (no fastify tier; the
`version: null` of its vanilla result and the omitted field of the
distiller's are both modelled as `none`). -/
def detectFramework (files : FileMap) : FrameworkInfo :=
  let d := manifestDeps files
  if dTruthy d (strOf "react") then
    if dTruthy d (strOf "next") then
      { ftype := strOf "nextjs", version := d (strOf "next"),
        features := [strOf "React", strOf "SSR", strOf "API Routes", strOf "App Router"] }
    else
      { ftype := strOf "react", version := d (strOf "react"),
        features := [strOf "React", strOf "JSX", strOf "Hooks", strOf "Components"] }
  else if dTruthy d (strOf "vue") then
    if dTruthy d (strOf "nuxt") then
      { ftype := strOf "nuxt", version := d (strOf "nuxt"),
        features := [strOf "Vue", strOf "SSR", strOf "Auto-imports"] }
    else
      { ftype := strOf "vue", version := d (strOf "vue"),
        features := [strOf "Vue", strOf "Components", strOf "Reactivity"] }
  else if dTruthy d (strOf "svelte") then
    { ftype := strOf "svelte", version := d (strOf "svelte"),
      features := [strOf "Svelte", strOf "Components", strOf "Reactivity"] }
  else if dTruthy d (strOf "@angular/core") then
    { ftype := strOf "angular", version := d (strOf "@angular/core"),
      features := [strOf "Angular", strOf "Components", strOf "Services"] }
  else if dTruthy d (strOf "express") then
    { ftype := strOf "express", version := d (strOf "express"),
      features := [strOf "Express", strOf "Middleware", strOf "REST API"] }
  else
    { ftype := strOf "vanilla", version := none,
      features := [strOf "HTML", strOf "CSS", strOf "JavaScript"] }

end Store

/-- Modelled from the spec (§4.2): the classification priority list, first
match wins — react (refined to nextjs), vue (refined to nuxt), svelte,
angular, express, fastify, vanilla. -/
def specFrameworkType (t : Str → Bool) : Str :=
  if t (strOf "react") then
    if t (strOf "next") then strOf "nextjs" else strOf "react"
  else if t (strOf "vue") then
    if t (strOf "nuxt") then strOf "nuxt" else strOf "vue"
  else if t (strOf "svelte") then strOf "svelte"
  else if t (strOf "@angular/core") then strOf "angular"
  else if t (strOf "express") then strOf "express"
  else if t (strOf "fastify") then strOf "fastify"
  else strOf "vanilla"

/-- Modelled from the spec: the same priority list with the fastify tier
removed (what the store's local copy implements). -/
def specFrameworkTypeNoFastify (t : Str → Bool) : Str :=
  if t (strOf "react") then
    if t (strOf "next") then strOf "nextjs" else strOf "react"
  else if t (strOf "vue") then
    if t (strOf "nuxt") then strOf "nuxt" else strOf "vue"
  else if t (strOf "svelte") then strOf "svelte"
  else if t (strOf "@angular/core") then strOf "angular"
  else if t (strOf "express") then strOf "express"
  else strOf "vanilla"

theorem distill_detectFramework_type (files : FileMap) :
    (Distill.detectFramework files).ftype
      = specFrameworkType (dTruthy (manifestDeps files)) := by
  unfold Distill.detectFramework specFrameworkType
  dsimp only
  split_ifs <;> rfl

theorem store_detectFramework_type (files : FileMap) :
    (Store.detectFramework files).ftype
      = specFrameworkTypeNoFastify (dTruthy (manifestDeps files)) := by
  unfold Store.detectFramework specFrameworkTypeNoFastify
  dsimp only
  split_ifs <;> rfl

/-! ### Provider registry (multiProviderService.ts, lines 7-191)

`localStorage` + `JSON.parse`/`JSON.stringify` of the provider list are
modelled by an `Option (List PRecord)` persisted state: `none` stands for
an absent key, unparsable JSON, or a parsed value on which `.find` throws;
a `PRecord` is a persisted provider object whose optional fields model the
keys present in the stored JSON (JSON.stringify omits `undefined` fields,
so a `ProviderConfig` without `apiKey` persists without that key). -/

/-- Per-token pricing in millionths (the source's decimal literals scaled
by 10^6, avoiding floating point; e.g. `0.005` is stored as `5000`). -/
structure Pricing where
  inputMicro : Nat
  outputMicro : Nat
deriving DecidableEq

structure ModelInfo where
  id : Str
  name : Str
  size : Option Str
  contextLength : Option Nat
  pricing : Option Pricing
deriving DecidableEq

structure ProviderConfig where
  name : Str
  baseUrl : Str
  apiKey : Option Str
  models : List ModelInfo
  enabled : Bool
deriving DecidableEq

/-- Model entry with context length only. -/
def mi (id nm : String) (ctx : Nat) : ModelInfo :=
  ⟨strOf id, strOf nm, none, some ctx, none⟩

/-- Model entry with size label and context length. -/
def mis (id nm sz : String) (ctx : Nat) : ModelInfo :=
  ⟨strOf id, strOf nm, some (strOf sz), some ctx, none⟩

/-- Model entry with context length and pricing (micro-dollars). -/
def mip (id nm : String) (ctx inMicro outMicro : Nat) : ModelInfo :=
  ⟨strOf id, strOf nm, none, some ctx, some ⟨inMicro, outMicro⟩⟩

def DEFAULT_PROVIDERS : List ProviderConfig :=
  [ { name := strOf "Ollama", baseUrl := strOf "http://localhost:11434", apiKey := none,
      models :=
        [ mis "qwen2.5:0.5b" "Qwen 2.5 (Fast)" "0.5B" 32768,
          mis "codegemma:latest" "CodeGemma" "7.3B" 8192,
          mis "llama3.2:3b" "Llama 3.2 3B" "3B" 32768 ],
      enabled := true },
    { name := strOf "OpenRouter", baseUrl := strOf "https://openrouter.ai/api/v1",
      apiKey := some
        (strOf "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"),
      models :=
        [ mi "openai/gpt-oss-120b:free" "GPT-OSS 120B (Free)" 32768,
          mi "meta-llama/llama-3.1-8b-instruct:free" "Llama 3.1 8B Instruct (Free)" 131072,
          mi "meta-llama/llama-3.1-70b-instruct:free" "Llama 3.1 70B Instruct (Free)" 131072,
          mi "meta-llama/llama-3.1-405b-instruct:free" "Llama 3.1 405B Instruct (Free)" 131072,
          mi "microsoft/wizardlm-2-8x22b:free" "WizardLM 2 8x22B (Free)" 65536,
          mi "microsoft/wizardlm-2-7b" "WizardLM 2 7B (Free)" 32768,
          mi "huggingface/zephyr-7b-beta:free" "Zephyr 7B Beta (Free)" 32768,
          mi "openchat/openchat-7b:free" "OpenChat 7B (Free)" 8192,
          mi "anthropic/claude-3-haiku:beta" "Claude 3 Haiku (Beta)" 200000,
          mip "openai/gpt-4o" "GPT-4o" 128000 5000 15000,
          mip "openai/gpt-4o-mini" "GPT-4o Mini" 128000 150 600,
          mip "openai/gpt-4-turbo" "GPT-4 Turbo" 128000 10000 30000,
          mip "openai/gpt-4" "GPT-4" 8192 30000 60000,
          mip "openai/gpt-3.5-turbo" "GPT-3.5 Turbo" 16385 500 1500,
          mip "openai/gpt-3.5-turbo-16k" "GPT-3.5 Turbo 16K" 16385 3000 4000,
          mip "anthropic/claude-3.5-sonnet" "Claude 3.5 Sonnet" 200000 3000 15000,
          mip "anthropic/claude-3-opus" "Claude 3 Opus" 200000 15000 75000,
          mip "anthropic/claude-3-haiku" "Claude 3 Haiku" 200000 250 1250,
          mip "anthropic/claude-3-sonnet" "Claude 3 Sonnet" 200000 3000 15000,
          mip "google/gemini-pro-1.5" "Gemini Pro 1.5" 2097152 1250 5000,
          mip "google/gemini-flash-1.5" "Gemini Flash 1.5" 1048576 75 300,
          mip "google/gemini-pro" "Gemini Pro" 32768 250 500,
          mip "meta-llama/llama-3.1-405b-instruct" "Llama 3.1 405B Instruct" 131072 2000 2000,
          mip "meta-llama/llama-3.1-70b-instruct" "Llama 3.1 70B Instruct" 131072 900 900,
          mip "meta-llama/llama-3.1-8b-instruct" "Llama 3.1 8B Instruct" 131072 300 300,
          mip "meta-llama/llama-3-70b-instruct" "Llama 3 70B Instruct" 8192 1000 1000,
          mip "meta-llama/llama-3-8b-instruct" "Llama 3 8B Instruct" 8192 400 400,
          mip "mistralai/mistral-7b-instruct" "Mistral 7B Instruct" 32768 200 200,
          mi "mistralai/mistral-7b-instruct:free" "Mistral 7B Instruct (Free)" 32768,
          mip "mistralai/mixtral-8x7b-instruct" "Mixtral 8x7B Instruct" 32768 700 700,
          mip "cohere/command-r-plus" "Command R Plus" 128000 3000 15000,
          mip "cohere/command-r" "Command R" 128000 500 1500,
          mip "groq/llama-3.1-70b" "Llama 3.1 70B (Groq)" 131072 590 790,
          mip "groq/llama-3.1-8b" "Llama 3.1 8B (Groq)" 131072 50 80,
          mip "groq/mixtral-8x7b" "Mixtral 8x7B (Groq)" 32768 270 270,
          mip "xai/grok-beta" "Grok Beta" 131072 5000 5000,
          mip "perplexity/llama-3.1-sonar-large-128k-online" "Llama 3.1 Sonar Large 128K"
            127072 1000 1000,
          mip "perplexity/llama-3.1-sonar-small-128k-online" "Llama 3.1 Sonar Small 128K"
            127072 200 200,
          mip "fireworks/firellava-13b" "FireLLaVA 13B" 4096 200 200,
          mip "anthropic/claude-2" "Claude 2" 100000 8000 24000,
          mip "anthropic/claude-instant-1" "Claude Instant" 100000 800 2400 ],
      enabled := false },
    { name := strOf "OpenAI", baseUrl := strOf "https://api.openai.com/v1", apiKey := none,
      models :=
        [ mip "gpt-4o" "GPT-4o" 128000 5000 15000,
          mip "gpt-4o-mini" "GPT-4o Mini" 128000 150 600,
          mip "gpt-3.5-turbo" "GPT-3.5 Turbo" 16385 500 1500 ],
      enabled := false },
    { name := strOf "Anthropic", baseUrl := strOf "https://api.anthropic.com/v1", apiKey := none,
      models :=
        [ mip "claude-3-5-sonnet-20241022" "Claude 3.5 Sonnet" 200000 3000 15000,
          mip "claude-3-5-haiku-20241022" "Claude 3.5 Haiku" 200000 800 4000 ],
      enabled := false } ]

/-- A persisted provider record: present JSON keys are `some`. -/
structure PRecord where
  name : Str
  baseUrl : Option Str
  apiKey : Option Str
  models : Option (List ModelInfo)
  enabled : Option Bool
deriving DecidableEq

/-- The shallow merge `{...defaultProvider, ...savedProvider}` (the saved
record was found by name equality, so its `name` override is the same). -/
def overrideWith (d : ProviderConfig) (s : PRecord) : ProviderConfig :=
  { name := d.name
    baseUrl := s.baseUrl.getD d.baseUrl
    apiKey := match s.apiKey with
      | some k => some k
      | none => d.apiKey
    models := s.models.getD d.models
    enabled := s.enabled.getD d.enabled }

/-- `loadProviderConfigs`: merge persisted overrides (when readable) onto
the built-in defaults, one entry per default, in the default order. -/
def loadProviderConfigs (saved : Option (List PRecord)) : List ProviderConfig :=
  match saved with
  | none => DEFAULT_PROVIDERS
  | some parsed =>
    DEFAULT_PROVIDERS.map (fun dp =>
      match parsed.find? (fun p => p.name = dp.name) with
      | some sp => overrideWith dp sp
      | none => dp)

/-- `JSON.stringify` of a `ProviderConfig` (all fields present except an
`undefined` apiKey, which stringify omits). -/
def toPRecord (p : ProviderConfig) : PRecord :=
  ⟨p.name, some p.baseUrl, p.apiKey, some p.models, some p.enabled⟩

/-- `saveProviderConfigs`: persist the list. -/
def saveProviderConfigs (configs : List ProviderConfig) : Option (List PRecord) :=
  some (configs.map toPRecord)

/-- `setActiveProvider`: load, set `enabled` to `name === providerName`
for every provider, save. -/
def setActiveProvider (providerName : Str) (saved : Option (List PRecord)) :
    Option (List PRecord) :=
  saveProviderConfigs
    ((loadProviderConfigs saved).map
      (fun p => { p with enabled := decide (p.name = providerName) }))

/-- `getActiveProvider`: the first enabled provider, if any. -/
def getActiveProvider (saved : Option (List PRecord)) : Option ProviderConfig :=
  (loadProviderConfigs saved).find? (fun p => p.enabled)

/-- `getAvailableProviders`. -/
def getAvailableProviders (saved : Option (List PRecord)) : List ProviderConfig :=
  loadProviderConfigs saved

section RegistryLemmas

theorem load_entry_name (dp : ProviderConfig) (o : Option PRecord) :
    (match o with | some sp => overrideWith dp sp | none => dp).name = dp.name := by
  cases o <;> rfl

/-- Registry loads always carry the built-in provider names in the built-in
order, whatever was persisted. -/
theorem load_names (saved : Option (List PRecord)) :
    (loadProviderConfigs saved).map (fun p => p.name)
      = DEFAULT_PROVIDERS.map (fun p => p.name) := by
  cases saved with
  | none => rfl
  | some l =>
    unfold loadProviderConfigs
    rw [List.map_map]
    refine List.map_congr_left fun dp _ => ?_
    exact load_entry_name dp _

theorem find?_append_of_none {α : Type} (p : α → Bool) (l₁ l₂ : List α)
    (h : ∀ r ∈ l₁, p r = false) :
    (l₁ ++ l₂).find? p = l₂.find? p := by
  induction l₁ with
  | nil => rfl
  | cons a t ih =>
    rw [List.cons_append, List.find?_cons, h a (List.mem_cons_self _ _)]
    exact ih (fun r hr => h r (List.mem_cons_of_mem _ hr))

/-- Loading a save of configs whose names equal the default names (in
order, which are nodup) recovers each provider's name and enabled flag. -/
theorem load_save_pairs (D : List ProviderConfig) :
    ∀ (qs : List ProviderConfig) (extra : List PRecord),
    qs.map (fun p => p.name) = D.map (fun p => p.name) →
    (D.map (fun p => p.name)).Nodup →
    (∀ r ∈ extra, ∀ d ∈ D, ¬ r.name = d.name) →
    (D.map (fun dp =>
        match (extra ++ qs.map toPRecord).find? (fun p => p.name = dp.name) with
        | some sp => overrideWith dp sp
        | none => dp)).map (fun p => (p.name, p.enabled))
      = qs.map (fun p => (p.name, p.enabled)) := by
  induction D with
  | nil =>
    intro qs extra hnames _ _
    have h0 : qs.map (fun p => p.name) = [] := by simpa using hnames
    have : qs = [] := List.map_eq_nil_iff.mp h0
    simp [this]
  | cons d D' ih =>
    intro qs extra hnames hnodup hextra
    cases qs with
    | nil => simp at hnames
    | cons q qs' =>
      simp only [List.map_cons, List.cons.injEq] at hnames
      obtain ⟨hq, hnames'⟩ := hnames
      simp only [List.map_cons, List.nodup_cons] at hnodup
      obtain ⟨hdnotin, hnodup'⟩ := hnodup
      have hfind : (extra ++ (toPRecord q :: qs'.map toPRecord)).find?
          (fun p => p.name = d.name) = some (toPRecord q) := by
        rw [find?_append_of_none _ extra _
          (fun r hr => by simpa using hextra r hr d (List.mem_cons_self _ _))]
        simp [List.find?_cons, toPRecord, hq]
      have hextra' : ∀ r ∈ extra ++ [toPRecord q], ∀ d' ∈ D', ¬ r.name = d'.name := by
        intro r hr d' hd'
        rcases List.mem_append.mp hr with h | h
        · exact hextra r h d' (List.mem_cons_of_mem _ hd')
        · have hrq : r = toPRecord q := by simpa using h
          subst hrq
          intro hcontra
          apply hdnotin
          have hdd : d.name = d'.name := by
            rw [← hq]
            exact hcontra
          rw [hdd]
          exact List.mem_map.mpr ⟨d', hd', rfl⟩
      have hrearr : extra ++ toPRecord q :: List.map toPRecord qs'
          = (extra ++ [toPRecord q]) ++ List.map toPRecord qs' := by
        simp
      simp only [List.map_cons, List.cons.injEq]
      constructor
      · rw [hfind]
        simp [overrideWith, toPRecord, hq]
      · simp only [hrearr]
        exact ih qs' (extra ++ [toPRecord q]) hnames' hnodup' hextra'

theorem load_some_eq (parsed : List PRecord) :
    loadProviderConfigs (some parsed)
      = DEFAULT_PROVIDERS.map (fun dp =>
          match parsed.find? (fun p => p.name = dp.name) with
          | some sp => overrideWith dp sp
          | none => dp) := rfl

/-- The name/enabled pattern of every load after `setActiveProvider`. -/
theorem load_setActive_pairs (saved : Option (List PRecord)) (X : Str) :
    (loadProviderConfigs (setActiveProvider X saved)).map (fun p => (p.name, p.enabled))
      = (loadProviderConfigs saved).map (fun p => (p.name, decide (p.name = X))) := by
  have hq : ((loadProviderConfigs saved).map
        (fun p => { p with enabled := decide (p.name = X) })).map (fun p => p.name)
      = DEFAULT_PROVIDERS.map (fun p => p.name) := by
    rw [List.map_map]
    rw [show ((fun p : ProviderConfig => p.name) ∘
        (fun p : ProviderConfig => { p with enabled := decide (p.name = X) }))
        = (fun p : ProviderConfig => p.name) from rfl]
    exact load_names saved
  have hmain := load_save_pairs DEFAULT_PROVIDERS
    ((loadProviderConfigs saved).map (fun p => { p with enabled := decide (p.name = X) }))
    [] hq (by decide) (by simp)
  simp only [List.nil_append] at hmain
  unfold setActiveProvider saveProviderConfigs
  rw [load_some_eq, hmain, List.map_map]
  rfl

/-- A persisted record whose name matches no built-in default never
affects a load. -/
theorem load_unknown_name_skip (r : PRecord) (l : List PRecord)
    (h : ∀ d ∈ DEFAULT_PROVIDERS, ¬ r.name = d.name) :
    loadProviderConfigs (some (r :: l)) = loadProviderConfigs (some l) := by
  simp only [loadProviderConfigs]
  refine List.map_congr_left fun dp hdp => ?_
  have hr : (fun p : PRecord => decide (p.name = dp.name)) r = false := by
    simpa using h dp hdp
  simp [List.find?_cons, hr]

end RegistryLemmas

/-! ### `generateLocalResponse` dispatcher (multiProviderService.ts 302-335)

The four wire adapters (`generateOllamaResponse`, `generateOpenAIResponse`,
`generateAnthropicResponse`, `generateOpenRouterResponse`) are
network-bound; for the dispatcher's control flow they are one oracle from
(provider name, prompt, system instruction, selected model id) to either
the returned text or a thrown error message (missing credential, non-2xx
status, abort, unreadable stream — the streaming callback, when present,
is part of the oracle's behaviour).  The dispatcher's result carries a
flag recording whether any adapter (hence the network) was consulted. -/

abbrev AdapterOracle := Str → Str → Str → Str → Except Str Str

def noProviderMsg : Str := strOf "No AI provider configured. Please check your settings."

/-- `provider.models[0]?.id || 'qwen2.5:0.5b'`. -/
def firstModelId (p : ProviderConfig) : Str :=
  match p.models.head? with
  | some m => if m.id = [] then strOf "qwen2.5:0.5b" else m.id
  | none => strOf "qwen2.5:0.5b"

/-- `modelId || provider.models[0]?.id || 'qwen2.5:0.5b'` (JS `||`; the
empty string is falsy). -/
def selectModelId (modelId : Option Str) (p : ProviderConfig) : Str :=
  match modelId with
  | some m => if m = [] then firstModelId p else m
  | none => firstModelId p

/-- The body of `generateLocalResponse`'s `try` block. -/
def generateLocalResponseBody (provider : Option ProviderConfig)
    (adapter : AdapterOracle) (prompt systemInstruction : Str) (modelId : Option Str) :
    Except Str (Str × Bool) :=
  match provider with
  | none => .ok (noProviderMsg, false)
  | some p =>
    let mid := selectModelId modelId p
    if p.name = strOf "Ollama" then
      (adapter p.name prompt systemInstruction mid).map (fun s => (s, true))
    else if p.name = strOf "OpenAI" then
      (adapter p.name prompt systemInstruction mid).map (fun s => (s, true))
    else if p.name = strOf "Anthropic" then
      (adapter p.name prompt systemInstruction mid).map (fun s => (s, true))
    else if p.name = strOf "OpenRouter" then
      (adapter p.name prompt systemInstruction mid).map (fun s => (s, true))
    else .ok (strOf "Provider " ++ p.name ++ strOf " not yet supported.", false)

/-- `generateLocalResponse`: the catch-all converts any adapter error into
a user-facing text result. -/
def generateLocalResponse (provider : Option ProviderConfig) (adapter : AdapterOracle)
    (prompt systemInstruction : Str) (modelId : Option Str) : Str × Bool :=
  match generateLocalResponseBody provider adapter prompt systemInstruction modelId with
  | .ok r => r
  | .error e =>
    (strOf "Error: " ++ e ++ strOf ". Please check your provider configuration.", true)

def supportedProviderNames : List Str :=
  [strOf "Ollama", strOf "OpenAI", strOf "Anthropic", strOf "OpenRouter"]

/-! ### `generateOllamaResponse` stream loop (multiProviderService.ts 420-493)

The newline-delimited JSON decode loop.  The incremental callback, when
provided, is invoked with the full accumulated text after every parsed
line; the trace of those values is recorded in the state.  Note the
`done` sentinel `break` leaves only the per-chunk line loop. -/

structure OllamaState where
  fullText : Str
  buffer : Str
  callbacks : List Str
deriving DecidableEq

def ollamaInit : OllamaState := ⟨[], [], []⟩

/-- `data.done` used as a condition. -/
def doneField (v : JsonVal) : Bool :=
  match jFieldLast (objFieldsOf v) (strOf "done") with
  | some d => jsTruthy d
  | none => false

/-- `data.response || ''`: a truthy string contributes its text, anything
else contributes the empty string (the Ollama wire protocol only carries
strings in `response`). -/
def responseFieldText (v : JsonVal) : Str :=
  match jFieldLast (objFieldsOf v) (strOf "response") with
  | some (.jstr s) => s
  | _ => []

/-- One iteration of the `for (const line of lines)` loop: skip a blank or
malformed line, `break` on a truthy `done` (second component), otherwise
accumulate and invoke the callback with the accumulated text. -/
def ollamaLineStep (st : OllamaState) (line : Str) : OllamaState × Bool :=
  if jsTrim line = [] then (st, false)
  else
    match jsonParse line with
    | none => (st, false)
    | some data =>
      if doneField data then (st, true)
      else
        let newFull := st.fullText ++ responseFieldText data
        ({ st with fullText := newFull, callbacks := st.callbacks ++ [newFull] }, false)

/-- The per-chunk line loop (a `break` skips the rest of this chunk's
lines only). -/
def ollamaLines (st : OllamaState) : List Str → OllamaState
  | [] => st
  | line :: rest =>
    match ollamaLineStep st line with
    | (st2, true) => st2
    | (st2, false) => ollamaLines st2 rest

/-- One `reader.read()` chunk: append to the buffer, split on newlines,
keep the incomplete last line in the buffer, process the complete lines. -/
def ollamaChunk (st : OllamaState) (chunk : Str) : OllamaState :=
  let lines := splitOnChar '\n' (st.buffer ++ chunk)
  ollamaLines { st with buffer := lines.getLastD [] } lines.dropLast

/-- The whole read loop over the wire chunks. -/
def ollamaRun (chunks : List Str) : OllamaState :=
  chunks.foldl ollamaChunk ollamaInit

/-- `return fullText || 'No response generated. ...'`. -/
def generateOllamaResult (chunks : List Str) : Str :=
  if (ollamaRun chunks).fullText = [] then
    strOf "No response generated. The model may still be loading."
  else (ollamaRun chunks).fullText

/-- Each callback value extends the previous one. -/
def prefixChain : List Str → Prop
  | [] => True
  | [_] => True
  | x :: y :: t => x <+: y ∧ prefixChain (y :: t)

/-- The streaming-loop invariant: the callback trace is an ascending
prefix chain whose last element is the accumulated text. -/
def ollamaInv (st : OllamaState) : Prop :=
  prefixChain st.callbacks ∧
    (match st.callbacks.getLast? with
     | some l => l = st.fullText
     | none => st.fullText = [])

theorem prefixChain_append_one {cb : List Str} {x : Str}
    (h : prefixChain cb)
    (hl : ∀ l, cb.getLast? = some l → l <+: x) : prefixChain (cb ++ [x]) := by
  induction cb with
  | nil => trivial
  | cons a t ih =>
    cases t with
    | nil =>
      exact ⟨hl a rfl, trivial⟩
    | cons b t2 =>
      obtain ⟨hab, hrest⟩ := h
      refine ⟨hab, ih hrest ?_⟩
      intro l hlast
      exact hl l (by rw [← hlast]; simp [List.getLast?_cons_cons])

theorem ollamaLineStep_inv (st : OllamaState) (line : Str) (h : ollamaInv st) :
    ollamaInv (ollamaLineStep st line).1 := by
  unfold ollamaLineStep
  split
  · exact h
  · split
    · exact h
    · split
      · exact h
      · refine ⟨?_, ?_⟩
        · refine prefixChain_append_one h.1 ?_
          intro l hlast
          have h2 := h.2
          rw [hlast] at h2
          rw [h2]
          exact ⟨_, rfl⟩
        · simp

theorem ollamaLines_inv (lines : List Str) :
    ∀ st : OllamaState, ollamaInv st → ollamaInv (ollamaLines st lines) := by
  induction lines with
  | nil => intro st h; exact h
  | cons line rest ih =>
    intro st h
    have hstep := ollamaLineStep_inv st line h
    unfold ollamaLines
    cases hs : ollamaLineStep st line with
    | mk st2 brk =>
      rw [hs] at hstep
      cases brk with
      | true => exact hstep
      | false => exact ih st2 hstep

theorem ollamaChunk_inv (st : OllamaState) (chunk : Str) (h : ollamaInv st) :
    ollamaInv (ollamaChunk st chunk) := by
  unfold ollamaChunk
  exact ollamaLines_inv _ _ ⟨h.1, h.2⟩

theorem ollamaRun_inv (chunks : List Str) : ollamaInv (ollamaRun chunks) := by
  unfold ollamaRun
  have hgen : ∀ st : OllamaState, ollamaInv st → ollamaInv (chunks.foldl ollamaChunk st) := by
    induction chunks with
    | nil => intro st h; exact h
    | cons c rest ih =>
      intro st h
      exact ih _ (ollamaChunk_inv st c h)
  exact hgen ollamaInit ⟨trivial, rfl⟩

/-! ### Store actions (part_005) -/

structure ChatMessage where
  role : Str
  content : Str
  mode : Str
deriving DecidableEq

/-- The store slice the embedded actions touch (message ids and timestamps
are environment-supplied and not modelled). -/
structure StoreState where
  files : FileMap
  activeFile : Str
  messages : List ChatMessage
  liveWritingFile : Option Str
  statusLog : List Str
deriving DecidableEq

/-- The store's `setFiles` action. -/
def setFiles (st : StoreState) (newFiles : FileMap) : StoreState :=
  { st with files := setFilesValidate newFiles }

/-- `deleteFile` (store lines 711-716): no-op on a map with at most one
entry; otherwise remove the key (JS `delete`) and move `activeFile` to the
first remaining key when the deleted path was active. -/
def deleteFile (st : StoreState) (path : Str) : StoreState :=
  if st.files.length ≤ 1 then st
  else
    let nextFiles := st.files.filter (fun e => ¬ e.1 = path)
    { st with
      files := nextFiles
      activeFile :=
        if st.activeFile = path then ((nextFiles.map (fun e => e.1)).headD (strOf ""))
        else st.activeFile }

/-- The agent-mode patch merge (store lines 594-601):
`{...state.files, ...patches}` with `activeFile` switched to the first
patch key (`Object.keys(patches)[0] || state.activeFile`; an empty-string
key is falsy).  Note the patch keys are merged directly, without the
`setFiles` normalization step. -/
def agentApplyPatches (st : StoreState) (patches : FileMap) : StoreState :=
  if patches = [] then st
  else
    { st with
      files := patches.foldl (fun acc e => recordSet acc e.1 e.2) st.files
      activeFile :=
        match patches.head? with
        | some e => if e.1 = [] then st.activeFile else e.1
        | none => st.activeFile }

/-! ### `handlePlanMode` (store lines 379-523)

The model calls themselves are network-bound and never throw (claim C4),
so the handler is a function of: the incoming state, whether
`apiClient.createFile` succeeds (`createOk`), the user text, the
date string used in the plan header, the timestamped plan file name, and
the text the model returns on each path.  After its try/catch the handler
unconditionally runs one more `set` whose updater reads the identifier
`plan` — a `const` scoped to the `catch` block — so that updater throws a
`ReferenceError` on both paths before appending anything; the `errored`
flag records that the handler terminates with that exception. -/

/-- The `initialPlanContent` template literal. -/
def initialPlanContent (content dateStr : Str) : Str :=
  strOf "# Implementation Plan: " ++ content
    ++ strOf "\n\n*Plan generated on " ++ dateStr
    ++ strOf "*\n\n## Analyzing Requirements...\n\n*AI is analyzing the task and generating a comprehensive implementation plan...*\n\n---\n*This plan is being written live by the AI. Watch as the content appears below.*\n---\n\n"

/-- The success chat message content. -/
def planSuccessContent (planFileName : Str) : Str :=
  strOf "✅ **Implementation plan created!**\n\n📄 **File:** `" ++ planFileName
    ++ strOf "`\n📝 **Status:** Plan generated and saved to disk\n👀 **View:** The plan file is now open in the editor\n\nThe AI has analyzed your request and created a comprehensive implementation plan. You can see it being written live in the `"
    ++ planFileName ++ strOf "` file."

/-- The fallback chat message content. -/
def planFallbackContent (plan : Str) : Str :=
  strOf "📋 **Implementation Plan**\n\n" ++ plan

/-- The live-writing loop appends every line of the plan stream plus a
newline to the initial content (the per-3-lines pacing delay does not
change the final content). -/
def appendLines (initial planText : Str) : Str :=
  (splitOnChar '\n' planText).foldl (fun acc line => acc ++ (line ++ ['\n'])) initial

structure PlanOutcome where
  state : StoreState
  errored : Bool
deriving DecidableEq

def handlePlanMode (st : StoreState) (createOk : Bool)
    (content dateStr planFileName planText planTextFallback : Str) : PlanOutcome :=
  let st0 := { st with
    statusLog := st.statusLog
      ++ [strOf "Creating Implementation Plan - Writing to PLAN.md"] }
  let initial := initialPlanContent content dateStr
  if createOk then
    -- try: create the file, show it, live-write the streamed plan into it
    let st1 := { st0 with
      files := recordSet st0.files planFileName initial
      activeFile := planFileName
      statusLog := st0.statusLog
        ++ [strOf "Plan file created: " ++ planFileName ++ strOf " - Opening for live editing"]
      liveWritingFile := some planFileName }
    let st2 := { st1 with
      files := recordSet st.files planFileName (appendLines initial planText)
      statusLog := st1.statusLog ++ [strOf "Plan completed and saved to " ++ planFileName]
      liveWritingFile := none }
    let st3 := { st2 with
      messages := st2.messages
        ++ [⟨strOf "assistant", planSuccessContent planFileName, strOf "plan"⟩] }
    ⟨st3, true⟩
  else
    -- catch: `apiClient.createFile` threw; fall back to a chat message
    let st1 := { st0 with
      statusLog := st0.statusLog
        ++ [strOf "Plan generated (file creation failed, showing in chat)"]
      liveWritingFile := none }
    let st2 := { st1 with
      messages := st1.messages
        ++ [⟨strOf "assistant", planFallbackContent planTextFallback, strOf "plan"⟩] }
    ⟨st2, true⟩

/-! ## Claims -/

/-- C1, counterexample: `extractFiles` — the claim's named File-Action
Extractor — returns the empty mapping (zero entries, not one) on a model
output built from one well-formed `[CREATE: a.js]...[/CREATE]` block,
because its tier-1 regex recognizes only `[FILE: ...]` directives and the
input has no fenced code block for tier 2. -/
theorem claim1_counterexample :
    extractFiles (renderCreateBlocks [(strOf "a.js", strOf "const x = 1;")]) = [] := by
  decide

/-- C1, amended: the CREATE-directive parser actually used for
`[CREATE: path]...[/CREATE]` blocks (`processAICodeActions`) round-trips:
a model output built from `N` well-formed blocks with distinct paths
yields exactly `N` extracted actions, keyed by those exact paths, each
carrying exactly the enclosed content after trimming — while
`extractFiles` itself recognizes only `[FILE:]` directives and fenced
code blocks. -/
theorem claim1_amended_roundtrip (bs : List (Str × Str))
    (hwf : ∀ b ∈ bs, WFCreateBlock b) :
    extractCreateActions (renderCreateBlocks bs) = bs.map (fun b => (b.1, jsTrim b.2))
    ∧ (extractCreateActions (renderCreateBlocks bs)).length = bs.length
    ∧ (extractCreateActions (renderCreateBlocks bs)).map (fun a => a.1)
        = bs.map (fun b => b.1) := by
  have hmain := directiveScan_render bs hwf ((renderCreateBlocks bs).length + 1)
    (Nat.lt_succ_self _)
  refine ⟨hmain, ?_, ?_⟩
  · rw [show extractCreateActions (renderCreateBlocks bs)
      = directiveScan createMarker createTerm ((renderCreateBlocks bs).length + 1)
          (renderCreateBlocks bs) from rfl, hmain]
    simp
  · rw [show extractCreateActions (renderCreateBlocks bs)
      = directiveScan createMarker createTerm ((renderCreateBlocks bs).length + 1)
          (renderCreateBlocks bs) from rfl, hmain]
    simp

/-- C1, witness: the amended round-trip at two concrete blocks. -/
theorem claim1_amended_witness :
    (∀ b ∈ [(strOf "a.js", strOf "const x = 1;"), (strOf "b.py", strOf "print(1)")],
      WFCreateBlock b)
    ∧ extractCreateActions (renderCreateBlocks
        [(strOf "a.js", strOf "const x = 1;"), (strOf "b.py", strOf "print(1)")])
      = [(strOf "a.js", strOf "const x = 1;"), (strOf "b.py", strOf "print(1)")].map
          (fun b => (b.1, jsTrim b.2)) :=
  ⟨by decide, (claim1_amended_roundtrip _ (by decide)).1⟩

/-- C2, counterexample: a `setFiles` write of `query.sql` with SQL content
leaves the key unchanged, yet the key fails the extension-consistency
check, because the detected content type `sql` has no row in
`compatibleExtensions`; so not every write leaves every key
content-consistent. -/
theorem claim2_counterexample :
    (setFiles ⟨[], strOf "", [], none, []⟩
        [(strOf "query.sql", strOf "SELECT 1;")]).files
      = [(strOf "query.sql", strOf "SELECT 1;")]
    ∧ isValidExtensionForContent (lowerStr (extAfterDot (strOf "query.sql")))
        (strOf "SELECT 1;") = false := by
  constructor
  · decide
  · decide

/-- C2, amended: every key a `setFiles` write stores has been normalized by
`ensureProperFilename`, and such a key passes the extension-consistency
check whenever the detected content type of its content has a
compatibility row (html, css, jsx, js, py, json, md); for contents
detected as sql or txt the check fails even after normalization, and the
agent-mode patch merge and plan-mode live writes bypass normalization
entirely. -/
theorem claim2_amended (st : StoreState) (newFiles : FileMap) (k c : Str)
    (hmem : (k, c) ∈ (setFiles st newFiles).files)
    (hgood : detectContentType c ∈ goodCtypes) :
    isValidExtensionForContent (lowerStr (extAfterDot k)) c = true := by
  have hmem' : (k, c) ∈ setFilesValidate newFiles := hmem
  obtain ⟨e, _, heq⟩ := setFilesValidate_mem hmem'
  have hk : k = ensureProperFilename e.1 e.2 := congrArg Prod.fst heq
  have hc : c = e.2 := congrArg Prod.snd heq
  subst hc
  rw [hk]
  exact ensure_valid_good e.1 e.2 hgood

/-- C2, witness: the amended statement at one concrete write. -/
theorem claim2_amended_witness :
    (strOf "app.js", strOf "const x = 1;")
        ∈ (setFiles ⟨[], strOf "", [], none, []⟩
            [(strOf "app", strOf "const x = 1;")]).files
    ∧ detectContentType (strOf "const x = 1;") ∈ goodCtypes
    ∧ isValidExtensionForContent (lowerStr (extAfterDot (strOf "app.js")))
        (strOf "const x = 1;") = true :=
  ⟨by decide, by decide,
    claim2_amended ⟨[], strOf "", [], none, []⟩ [(strOf "app", strOf "const x = 1;")]
      (strOf "app.js") (strOf "const x = 1;") (by decide) (by decide)⟩

/-- C3: in plan mode, when plan-file creation succeeds and the model call
returns, the live-writing flag is cleared and exactly one summary message
is appended to the conversation log; when creation fails, the plan text is
posted as a single chat message instead.  In both paths the handler's
trailing duplicate message-append (the latent defect flagged by the spec)
faults on the out-of-scope `plan` binding before appending anything, which
the `errored` flag records. -/
theorem claim3_planMode (st : StoreState)
    (content dateStr planFileName planText planTextFallback : Str) :
    ((handlePlanMode st true content dateStr planFileName planText
        planTextFallback).state.liveWritingFile = none
    ∧ (handlePlanMode st true content dateStr planFileName planText
        planTextFallback).state.messages
      = st.messages ++ [⟨strOf "assistant", planSuccessContent planFileName, strOf "plan"⟩]
    ∧ (handlePlanMode st true content dateStr planFileName planText
        planTextFallback).errored = true)
    ∧ ((handlePlanMode st false content dateStr planFileName planText
        planTextFallback).state.liveWritingFile = none
    ∧ (handlePlanMode st false content dateStr planFileName planText
        planTextFallback).state.messages
      = st.messages
          ++ [⟨strOf "assistant", planFallbackContent planTextFallback, strOf "plan"⟩]
    ∧ (handlePlanMode st false content dateStr planFileName planText
        planTextFallback).errored = true) :=
  ⟨⟨rfl, rfl, rfl⟩, ⟨rfl, rfl, rfl⟩⟩

/-- C4: the dispatcher `generateLocalResponse` always returns a string and
never propagates an exception: with no enabled provider it returns the
explanatory string without consulting any adapter; an adapter error for
any supported provider is converted by the catch-all into a user-facing
`Error: ...` string; an adapter success is returned as-is; an unsupported
provider name yields a text result without any network call. -/
theorem claim4_dispatcher (adapter : AdapterOracle) (prompt sys : Str)
    (modelId : Option Str) :
    generateLocalResponse none adapter prompt sys modelId = (noProviderMsg, false)
    ∧ (∀ (p : ProviderConfig) (e : Str), p.name ∈ supportedProviderNames →
        adapter p.name prompt sys (selectModelId modelId p) = .error e →
        generateLocalResponse (some p) adapter prompt sys modelId
          = (strOf "Error: " ++ e ++ strOf ". Please check your provider configuration.",
              true))
    ∧ (∀ (p : ProviderConfig) (s : Str), p.name ∈ supportedProviderNames →
        adapter p.name prompt sys (selectModelId modelId p) = .ok s →
        generateLocalResponse (some p) adapter prompt sys modelId = (s, true))
    ∧ (∀ p : ProviderConfig, p.name ∉ supportedProviderNames →
        generateLocalResponse (some p) adapter prompt sys modelId
          = (strOf "Provider " ++ p.name ++ strOf " not yet supported.", false)) := by
  refine ⟨rfl, ?_, ?_, ?_⟩
  · intro p e hmem hae
    rcases (by simpa [supportedProviderNames] using hmem :
        p.name = strOf "Ollama" ∨ p.name = strOf "OpenAI" ∨
        p.name = strOf "Anthropic" ∨ p.name = strOf "OpenRouter") with h | h | h | h <;>
      rw [h] at hae <;>
      simp [generateLocalResponse, generateLocalResponseBody, h, hae, Except.map]
  · intro p s hmem hae
    rcases (by simpa [supportedProviderNames] using hmem :
        p.name = strOf "Ollama" ∨ p.name = strOf "OpenAI" ∨
        p.name = strOf "Anthropic" ∨ p.name = strOf "OpenRouter") with h | h | h | h <;>
      rw [h] at hae <;>
      simp [generateLocalResponse, generateLocalResponseBody, h, hae, Except.map]
  · intro p hmem
    have h1 : ¬ p.name = strOf "Ollama" := by
      intro h
      exact hmem (by simp [supportedProviderNames, h])
    have h2 : ¬ p.name = strOf "OpenAI" := by
      intro h
      exact hmem (by simp [supportedProviderNames, h])
    have h3 : ¬ p.name = strOf "Anthropic" := by
      intro h
      exact hmem (by simp [supportedProviderNames, h])
    have h4 : ¬ p.name = strOf "OpenRouter" := by
      intro h
      exact hmem (by simp [supportedProviderNames, h])
    simp [generateLocalResponse, generateLocalResponseBody, h1, h2, h3, h4]

/-- C4, witness: a failing Ollama adapter is converted into the
user-facing error string. -/
theorem claim4_witness :
    (strOf "Ollama" ∈ supportedProviderNames)
    ∧ generateLocalResponse
        (some { name := strOf "Ollama", baseUrl := strOf "http://localhost:11434",
                apiKey := none, models := [], enabled := true })
        (fun _ _ _ _ => .error (strOf "boom")) (strOf "p") (strOf "s") none
      = (strOf "Error: " ++ strOf "boom"
          ++ strOf ". Please check your provider configuration.", true) :=
  ⟨by decide,
    (claim4_dispatcher (fun _ _ _ _ => .error (strOf "boom")) (strOf "p") (strOf "s")
        none).2.1
      { name := strOf "Ollama", baseUrl := strOf "http://localhost:11434",
        apiKey := none, models := [], enabled := true }
      (strOf "boom") (by decide) rfl⟩

section DeleteFileLemmas

theorem find?_filter_of_ne (l : FileMap) (k path : Str) (hk : ¬ k = path) :
    (l.filter (fun e => ¬ e.1 = path)).find? (fun e => e.1 = k)
      = l.find? (fun e => e.1 = k) := by
  induction l with
  | nil => rfl
  | cons e t ih =>
    by_cases hp : e.1 = path
    · have h1 : (e :: t).filter (fun x => ¬ x.1 = path) = t.filter (fun x => ¬ x.1 = path) := by
        simp [List.filter_cons, hp]
      have hek : (fun x : Str × Str => decide (x.1 = k)) e = false := by
        simp [hp]
        intro hc
        exact hk hc.symm
      have h2 : (e :: t).find? (fun x => x.1 = k) = t.find? (fun x => x.1 = k) := by
        simp [List.find?_cons, hek]
      rw [h1, h2, ih]
    · have h1 : (e :: t).filter (fun x => ¬ x.1 = path)
          = e :: t.filter (fun x => ¬ x.1 = path) := by
        simp [List.filter_cons, hp]
      rw [h1]
      by_cases hek : e.1 = k
      · have hekb : (fun x : Str × Str => decide (x.1 = k)) e = true := by simpa using hek
        simp only [List.find?_cons, hekb]
      · have hekb : (fun x : Str × Str => decide (x.1 = k)) e = false := by simpa using hek
        simp only [List.find?_cons, hekb]
        exact ih

theorem recordGet_filter_self (l : FileMap) (path : Str) :
    recordGet (l.filter (fun e => ¬ e.1 = path)) path = none := by
  unfold recordGet
  have h : (l.filter (fun e => ¬ e.1 = path)).find? (fun e => e.1 = path) = none := by
    rw [List.find?_eq_none]
    intro x hx
    have h2 := (List.mem_filter.mp hx).2
    simpa using h2
  rw [h]
  rfl

theorem filter_out_key_ne_nil (l : FileMap) (path : Str)
    (hnodup : (l.map (fun e => e.1)).Nodup) (hlen : 2 ≤ l.length) :
    l.filter (fun e => ¬ e.1 = path) ≠ [] := by
  intro hempty
  have hall : ∀ e ∈ l, e.1 = path := by
    intro e he
    have h := List.filter_eq_nil_iff.mp hempty e he
    simpa using h
  cases l with
  | nil => simp at hlen
  | cons a t =>
    cases t with
    | nil => simp at hlen
    | cons b t2 =>
      have ha := hall a (List.mem_cons_self _ _)
      have hb := hall b (List.mem_cons_of_mem _ (List.mem_cons_self _ _))
      simp only [List.map_cons, List.nodup_cons] at hnodup
      exact hnodup.1 (by
        rw [ha, ← hb]
        exact List.mem_cons_self _ _)

theorem headD_map_mem {l : FileMap} (h : l ≠ []) (d : Str) :
    (l.map (fun e => e.1)).headD d ∈ l.map (fun e => e.1) := by
  cases l with
  | nil => exact absurd rfl h
  | cons a t => simp

end DeleteFileLemmas

/-- C5: after `setActiveProvider X` for any `X` that names an available
provider, every subsequent registry load has exactly one enabled provider
(the one named `X`) and all others disabled, for every persisted state. -/
theorem claim5_setActiveProvider (saved : Option (List PRecord)) (X : Str)
    (hX : X ∈ (loadProviderConfigs saved).map (fun p => p.name)) :
    (∀ p ∈ loadProviderConfigs (setActiveProvider X saved),
      (p.enabled = true ↔ p.name = X))
    ∧ (loadProviderConfigs (setActiveProvider X saved)).countP (fun p => p.enabled) = 1 := by
  have hpairs := load_setActive_pairs saved X
  constructor
  · intro p hp
    have hmem : (p.name, p.enabled)
        ∈ (loadProviderConfigs (setActiveProvider X saved)).map
            (fun p => (p.name, p.enabled)) :=
      List.mem_map.mpr ⟨p, hp, rfl⟩
    rw [hpairs] at hmem
    obtain ⟨q, _, hq⟩ := List.mem_map.mp hmem
    have hqn : q.name = p.name := congrArg Prod.fst hq
    have hqe : decide (q.name = X) = p.enabled := congrArg Prod.snd hq
    rw [hqn] at hqe
    constructor
    · intro he
      exact of_decide_eq_true (hqe.trans he)
    · intro he
      rw [← hqe]
      simp [he]
  · have h1 : (loadProviderConfigs (setActiveProvider X saved)).countP (fun p => p.enabled)
        = ((loadProviderConfigs (setActiveProvider X saved)).map
            (fun p => (p.name, p.enabled))).countP (fun pr => pr.2) := by
      rw [List.countP_map]
      rfl
    rw [h1, hpairs, List.countP_map]
    have h4 : (loadProviderConfigs saved).countP
          ((fun pr : Str × Bool => pr.2) ∘ (fun p => (p.name, decide (p.name = X))))
        = ((loadProviderConfigs saved).map (fun p => p.name)).countP
            (fun n => decide (n = X)) := by
      rw [List.countP_map]
      rfl
    rw [h4, load_names saved]
    have hX' : X ∈ DEFAULT_PROVIDERS.map (fun p => p.name) := by
      rw [← load_names saved]
      exact hX
    have hnames : DEFAULT_PROVIDERS.map (fun p : ProviderConfig => p.name)
        = [strOf "Ollama", strOf "OpenRouter", strOf "OpenAI", strOf "Anthropic"] := rfl
    rw [hnames] at hX' ⊢
    rcases (by simpa using hX' :
        X = strOf "Ollama" ∨ X = strOf "OpenRouter" ∨
        X = strOf "OpenAI" ∨ X = strOf "Anthropic") with h | h | h | h <;>
      subst h <;> decide

/-- C5, witness: activating OpenAI over empty persisted state. -/
theorem claim5_witness :
    (strOf "OpenAI" ∈ (loadProviderConfigs none).map (fun p => p.name))
    ∧ (loadProviderConfigs (setActiveProvider (strOf "OpenAI") none)).countP
        (fun p => p.enabled) = 1 :=
  ⟨by decide, (claim5_setActiveProvider none (strOf "OpenAI") (by decide)).2⟩

/-- C6, counterexample: on a manifest whose only dependency is `fastify`,
the orchestrator store's `detectFramework` (one of the claim's cited
implementations) classifies the project as `vanilla`, not `fastify` as
the claimed priority list requires, while the distiller's copy does
return `fastify`. -/
theorem claim6_counterexample :
    (Store.detectFramework
        [(strOf "package.json",
          strOf "\x7b\"dependencies\":\x7b\"fastify\":\"4.0.0\"\x7d\x7d")]).ftype
      = strOf "vanilla"
    ∧ (Distill.detectFramework
        [(strOf "package.json",
          strOf "\x7b\"dependencies\":\x7b\"fastify\":\"4.0.0\"\x7d\x7d")]).ftype
      = strOf "fastify" := by
  constructor
  · decide
  · decide

/-- C6, amended: the distiller's `detectFramework` applies exactly the
first-match-wins priority react/nextjs, vue/nuxt, svelte, angular,
express, fastify, vanilla (with manifest parse failure falling back to
vanilla, since the dependency environment is then empty); the store's
local copy applies the same priority without the fastify tier; in
particular every manifest with truthy `react` and `next` dependencies is
classified `nextjs` (not `react`) by both. -/
theorem claim6_amended (files : FileMap) :
    (Distill.detectFramework files).ftype = specFrameworkType (dTruthy (manifestDeps files))
    ∧ (Store.detectFramework files).ftype
        = specFrameworkTypeNoFastify (dTruthy (manifestDeps files))
    ∧ (dTruthy (manifestDeps files) (strOf "react") = true →
        dTruthy (manifestDeps files) (strOf "next") = true →
        (Distill.detectFramework files).ftype = strOf "nextjs"
        ∧ (Store.detectFramework files).ftype = strOf "nextjs") := by
  refine ⟨distill_detectFramework_type files, store_detectFramework_type files, ?_⟩
  intro h1 h2
  constructor
  · rw [distill_detectFramework_type files]
    simp [specFrameworkType, h1, h2]
  · rw [store_detectFramework_type files]
    simp [specFrameworkTypeNoFastify, h1, h2]

/-- C6, witness: a react+next manifest classifies as nextjs in both
implementations. -/
theorem claim6_witness :
    dTruthy (manifestDeps
        [(strOf "package.json",
          strOf "\x7b\"dependencies\":\x7b\"react\":\"18.2.0\",\"next\":\"14.0.0\"\x7d\x7d")])
        (strOf "react") = true
    ∧ dTruthy (manifestDeps
        [(strOf "package.json",
          strOf "\x7b\"dependencies\":\x7b\"react\":\"18.2.0\",\"next\":\"14.0.0\"\x7d\x7d")])
        (strOf "next") = true
    ∧ (Distill.detectFramework
        [(strOf "package.json",
          strOf "\x7b\"dependencies\":\x7b\"react\":\"18.2.0\",\"next\":\"14.0.0\"\x7d\x7d")]).ftype
      = strOf "nextjs" :=
  ⟨by decide, by decide,
    ((claim6_amended
        [(strOf "package.json",
          strOf "\x7b\"dependencies\":\x7b\"react\":\"18.2.0\",\"next\":\"14.0.0\"\x7d\x7d")]).2.2
      (by decide) (by decide)).1⟩

/-- C7: on the newline-delimited stream delivering
`{"response": "a"}`, `{"response": "b"}`, `{"done": true}`, the incremental
callback fires exactly twice, with "a" then "ab", and the final result is
"ab"; in general the callback trace is an ascending prefix chain (each
invocation carries the full accumulated text, in wire-arrival order) whose
last element is the accumulated text the function returns. -/
theorem claim7_streaming :
    ((ollamaRun [strOf "\x7b\"response\": \"a\"\x7d\n",
        strOf "\x7b\"response\": \"b\"\x7d\n",
        strOf "\x7b\"done\": true\x7d\n"]).callbacks = [strOf "a", strOf "ab"]
    ∧ generateOllamaResult [strOf "\x7b\"response\": \"a\"\x7d\n",
        strOf "\x7b\"response\": \"b\"\x7d\n",
        strOf "\x7b\"done\": true\x7d\n"] = strOf "ab")
    ∧ (∀ chunks : List Str, prefixChain (ollamaRun chunks).callbacks)
    ∧ (∀ (chunks : List Str) (l : Str),
        (ollamaRun chunks).callbacks.getLast? = some l →
        l = (ollamaRun chunks).fullText) := by
  refine ⟨⟨by decide, by decide⟩, fun chunks => (ollamaRun_inv chunks).1, ?_⟩
  intro chunks l h
  have h2 := (ollamaRun_inv chunks).2
  rw [h] at h2
  exact h2

/-- C7, witness: the general last-callback property at the demo stream. -/
theorem claim7_witness :
    (ollamaRun [strOf "\x7b\"response\": \"a\"\x7d\n",
        strOf "\x7b\"response\": \"b\"\x7d\n",
        strOf "\x7b\"done\": true\x7d\n"]).callbacks.getLast? = some (strOf "ab")
    ∧ strOf "ab" = (ollamaRun [strOf "\x7b\"response\": \"a\"\x7d\n",
        strOf "\x7b\"response\": \"b\"\x7d\n",
        strOf "\x7b\"done\": true\x7d\n"]).fullText :=
  ⟨by decide,
    claim7_streaming.2.2 [strOf "\x7b\"response\": \"a\"\x7d\n",
      strOf "\x7b\"response\": \"b\"\x7d\n",
      strOf "\x7b\"done\": true\x7d\n"] (strOf "ab") (by decide)⟩

/-- C8: filename normalization is idempotent — renormalizing an
already-normalized path (for the same content) returns it unchanged, for
both the extractor's `ensureProperExtension` and the store's identical
`ensureProperFilename`. -/
theorem claim8_idempotent (f c : Str) :
    ensureProperExtension (ensureProperExtension f c) c = ensureProperExtension f c
    ∧ ensureProperFilename (ensureProperFilename f c) c = ensureProperFilename f c :=
  ⟨ensureProperExtension_idem_aux f c, ensureProperExtension_idem_aux f c⟩

/-- C9: `deleteFile` is a no-op on a FileMap with at most one entry;
otherwise it removes exactly the given key, leaves every other entry
unchanged, never empties the map, keeps `activeFile` when it was not the
deleted path, and otherwise moves it to the first remaining key (so it
stays a valid key). -/
theorem claim9_deleteFile (st : StoreState) (path : Str)
    (hnodup : (st.files.map (fun e => e.1)).Nodup) :
    (st.files.length ≤ 1 → deleteFile st path = st)
    ∧ (2 ≤ st.files.length →
        recordGet (deleteFile st path).files path = none
        ∧ (∀ k, ¬ k = path →
            recordGet (deleteFile st path).files k = recordGet st.files k)
        ∧ (deleteFile st path).files ≠ []
        ∧ (st.activeFile = path →
            (deleteFile st path).activeFile
              = ((deleteFile st path).files.map (fun e => e.1)).headD (strOf "")
            ∧ (deleteFile st path).activeFile
                ∈ (deleteFile st path).files.map (fun e => e.1))
        ∧ (¬ st.activeFile = path →
            (deleteFile st path).activeFile = st.activeFile)) := by
  constructor
  · intro hle
    unfold deleteFile
    rw [if_pos hle]
  · intro hge
    have hne : ¬ st.files.length ≤ 1 := by omega
    have hd : deleteFile st path
        = { st with
            files := st.files.filter (fun e => ¬ e.1 = path)
            activeFile :=
              if st.activeFile = path then
                (((st.files.filter (fun e => ¬ e.1 = path)).map (fun e => e.1)).headD
                  (strOf ""))
              else st.activeFile } := by
      unfold deleteFile
      rw [if_neg hne]
    have hfne := filter_out_key_ne_nil st.files path hnodup hge
    rw [hd]
    refine ⟨recordGet_filter_self _ _, ?_, hfne, ?_, ?_⟩
    · intro k hk
      unfold recordGet
      rw [find?_filter_of_ne _ _ _ hk]
    · intro hap
      rw [if_pos hap]
      exact ⟨rfl, headD_map_mem hfne _⟩
    · intro hap
      rw [if_neg hap]

/-- C9, witness: deleting the active file from a two-entry map. -/
theorem claim9_witness :
    ((([(strOf "a.js", strOf "x"), (strOf "b.js", strOf "y")] : FileMap).map
        (fun e => e.1)).Nodup
    ∧ 2 ≤ ([(strOf "a.js", strOf "x"), (strOf "b.js", strOf "y")] : FileMap).length)
    ∧ recordGet (deleteFile
        ⟨[(strOf "a.js", strOf "x"), (strOf "b.js", strOf "y")], strOf "a.js", [], none, []⟩
        (strOf "a.js")).files (strOf "a.js") = none :=
  ⟨⟨by decide, by decide⟩,
    ((claim9_deleteFile
        ⟨[(strOf "a.js", strOf "x"), (strOf "b.js", strOf "y")], strOf "a.js", [], none, []⟩
        (strOf "a.js") (by decide)).2 (by decide)).1⟩

/-- C10: every registry load returns exactly one entry per built-in
default provider, in the built-in order (Ollama, OpenRouter, OpenAI,
Anthropic), for every persisted value including an unreadable one
(modelled as `none`); a persisted record whose name matches no built-in
default never affects the result, so persisted data cannot introduce a
new provider. -/
theorem claim10_load (saved : Option (List PRecord)) :
    (loadProviderConfigs saved).map (fun p => p.name)
      = [strOf "Ollama", strOf "OpenRouter", strOf "OpenAI", strOf "Anthropic"]
    ∧ (loadProviderConfigs saved).length = 4
    ∧ (∀ (r : PRecord) (l : List PRecord), (∀ d ∈ DEFAULT_PROVIDERS, ¬ r.name = d.name) →
        loadProviderConfigs (some (r :: l)) = loadProviderConfigs (some l)) := by
  refine ⟨?_, ?_, fun r l h => load_unknown_name_skip r l h⟩
  · rw [load_names saved]
    rfl
  · have h : ((loadProviderConfigs saved).map (fun p => p.name)).length = 4 := by
      rw [load_names saved]
      rfl
    simpa using h

/-- C10, witness: an unknown-name persisted record is dropped. -/
theorem claim10_witness :
    (∀ d ∈ DEFAULT_PROVIDERS,
      ¬ (⟨strOf "NotARealProvider", none, none, none, some true⟩ : PRecord).name = d.name)
    ∧ loadProviderConfigs
        (some [⟨strOf "NotARealProvider", none, none, none, some true⟩])
      = loadProviderConfigs (some []) :=
  ⟨by decide, (claim10_load none).2.2 _ _ (by decide)⟩

end CursWord
